import Mathlib

/-!
# Shallow embedding of GreynirTerms (`src/main.py`)

This file embeds the data model and operations of the GreynirTerms
synthetic-corpus generator: `TermPair` (rare lemma pair with an inflection
cache), `Template` (sentence-pair skeleton with a single placeholder per
side), `TemplateCollection` (gender-bucketed template store with random
sampling) and `TemplateCollector.run` (template extraction from a parallel
corpus), and proves the testable properties of the specification against it.

External collaborators (the BÍN morphological lexicon, the Greynir parser,
the tokenizer's detokenizer and Python's `random.sample`) are modelled at
their interface boundary: the lexicon and parser are function parameters,
the detokenizer joins tokens with single spaces, and the sampler is a
deterministic selection driven by a stream of numbers.  Python exceptions
(`KeyError` from `set().pop()`, `AssertionError`, `ValueError`) are modelled
by `Option`/explicit result constructors.  Python's Unicode capitalization
predicates are modelled over ASCII letters.
-/

set_option maxRecDepth 8000

/-! ## Python string primitives -/

/-- Python `str.isupper()`: at least one cased character and every cased
character is upper case (cased modelled as ASCII alphabetic). -/
def pyIsUpper (s : String) : Bool :=
  s.data.any (fun c => c.isAlpha) && s.data.all (fun c => !c.isAlpha || c.isUpper)

/-- Python `str.upper()`. -/
def pyUpper (s : String) : String := String.mk (s.data.map Char.toUpper)

/-- Python `str.strip()`: whitespace removed from both ends. -/
def pyStrip (s : String) : String :=
  String.mk (((s.data.dropWhile Char.isWhitespace).reverse.dropWhile
    Char.isWhitespace).reverse)

/-- Python `str.split(sep)` for a one-character separator, keeping empty
fields; `acc` holds the current field in reverse. -/
def pySplitAux (sep : Char) : List Char → List Char → List String
  | [], acc => [String.mk acc.reverse]
  | c :: rest, acc =>
    if c = sep then String.mk acc.reverse :: pySplitAux sep rest []
    else pySplitAux sep rest (c :: acc)

/-- Python `s.split(sep)` (single-character separator). -/
def pySplit (sep : Char) (s : String) : List String := pySplitAux sep s.data []

/-- Python `s.replace(PLACEHOLDER, rep)` specialised to the fixed
three-character marker `[*]`: every non-overlapping occurrence replaced,
left to right. -/
def replaceMarker (rep : List Char) : List Char → List Char
  | '[' :: '*' :: ']' :: rest => rep ++ replaceMarker rep rest
  | c :: rest => c :: replaceMarker rep rest
  | [] => []

/-- String wrapper for `replaceMarker`. -/
def pyReplaceMarker (s rep : String) : String :=
  String.mk (replaceMarker rep.data s.data)

/-- Python `str.capitalize()`: first character upper-cased, the rest lower-cased. -/
def pyCapitalize (s : String) : String :=
  match s.data with
  | [] => ""
  | c :: rest => String.mk (c.toUpper :: rest.map Char.toLower)

/-- `needle.isPrefixOf` at some position of the haystack. -/
def containsSub (needle : List Char) : List Char → Bool
  | [] => needle.isEmpty
  | c :: rest => needle.isPrefixOf (c :: rest) || containsSub needle rest

/-- Python `needle in hay` on strings (substring test). -/
def substr (needle hay : String) : Bool := containsSub needle.data hay.data

/-- Python `s.rsplit("-", maxsplit=1)[0]`: everything before the last hyphen. -/
def beforeLastHyphen (s : String) : String :=
  String.mk ((s.data.reverse.dropWhile (fun c => c ≠ '-')).drop 1).reverse

/-- Python `s.rsplit("-", maxsplit=1)[1]`: everything after the last hyphen. -/
def afterLastHyphen (s : String) : String :=
  String.mk (s.data.reverse.takeWhile (fun c => c ≠ '-')).reverse

/-! ## Grammatical variant vocabularies (`Template`/`TermPair` class constants) -/

def GENDER_VARIANTS : Finset String := {"kk", "kvk", "hk"}

def CASE_VARIANTS : Finset String := {"nf", "þf", "þgf", "ef"}

def NUMBER_VARIANTS : Finset String := {"et", "ft"}

def INTERESTING_VARIANTS : Finset String :=
  {"nf", "þf", "þgf", "ef", "et", "ft", "gr"}

/-- The neutral placeholder marker (`PLACEHOLDER = "[*]"`). -/
def PLACEHOLDER : String := "[*]"

/-- `MAX_LINES = 1000`. -/
def MAX_LINES : Nat := 1000

/-- Enumeration of `GENDER_VARIANTS` used to resolve `set.pop()` deterministically. -/
def GENDER_LIST : List String := ["kk", "kvk", "hk"]

def CASE_LIST : List String := ["nf", "þf", "þgf", "ef"]

def NUMBER_LIST : List String := ["et", "ft"]

/-- Python `set(s).pop()`: an arbitrary element of `s` when nonempty, an
exception (`none`) when `s` is empty.  The arbitrary choice is modelled as
the first member of a fixed enumeration `vocab` of the ambient vocabulary
(every set popped by the source is a subset of one of the class-constant
vocabularies). -/
def popSet (vocab : List String) (s : Finset String) : Option String :=
  (vocab.filter (fun v => decide (v ∈ s))).head?

/-- Python `glist = list(s); assert len(glist) == 1; glist[0]`:
the unique element of `s`, or an `AssertionError` (`none`). -/
def singletonOf (vocab : List String) (s : Finset String) : Option String :=
  if s.card = 1 then popSet vocab s else none

/-! ## The BÍN lexicon interface -/

/-- One BÍN meaning row, with the fields the source reads. -/
structure BinMeaning where
  stofn : String
  ordfl : String
  ordmynd : String
  beyging : String
  deriving Repr, DecidableEq

/-- `db.lookup_forms(lemma, cat, case)`: inflected forms for a lemma
restricted to a word category and grammatical case. -/
abbrev Lexicon : Type := String → String → String → List BinMeaning

/-- `db.lookup_lemma(lemma)` (second component of its result). -/
abbrev LemmaLookup : Type := String → List BinMeaning

/-! ## TermPair -/

/-- The inflection cache: a Python dict keyed by frozen variant sets. -/
abbrev Cache : Type := List (Finset String × (String × String))

/-- Dict lookup (`self._cache.get(variants)`). -/
def cacheGet (c : Cache) (k : Finset String) : Option (String × String) :=
  (c.find? (fun e => decide (e.1 = k))).map (fun e => e.2)

/-- Dict assignment (`self._cache[k] = v`): overwrite or append. -/
def cacheSet (c : Cache) (k : Finset String) (v : String × String) : Cache :=
  if c.any (fun e => decide (e.1 = k)) then
    c.map (fun e => if e.1 = k then (k, v) else e)
  else
    c ++ [(k, v)]

/-- A wrapper around a single rare Icelandic lemma and its English
counterpart (`class TermPair`).  `pfx` is the compound prefix (`_prefix`),
`lemmaStr` the working lemma (`_lemma`). -/
structure TermPair where
  lemmaStr : String
  cat : String
  pfx : String
  en_singular : String
  en_plural : String
  cache : Cache

/-- `TermPair.__init__`: resolves the lemma in the lexicon restricted to the
category; `none` models the `ValueError` raised when the match count is not
exactly 1.  A hyphenated canonical form with an unhyphenated caller lemma is
split into prefix and working suffix lemma. -/
def TermPair.init (lookup_lemma : LemmaLookup) (lemmaArg cat : String)
    (en : String × String) : Option TermPair :=
  match (lookup_lemma lemmaArg).filter (fun mm => decide (mm.ordfl = cat)) with
  | [m0] =>
    if substr "-" m0.stofn && !(substr "-" lemmaArg) then
      some { lemmaStr := afterLastHyphen m0.stofn, cat := cat,
             pfx := beforeLastHyphen m0.stofn,
             en_singular := en.1, en_plural := en.2, cache := [] }
    else
      some { lemmaStr := lemmaArg, cat := cat, pfx := "",
             en_singular := en.1, en_plural := en.2, cache := [] }
  | _ => none

/-- The Icelandic gender of the term (`TermPair.gender`). -/
def TermPair.gender (tp : TermPair) : String := tp.cat

/-- `"2" in m.beyging or "3" in m.beyging`: extra, idiosyncratic forms. -/
def skipForm (m : BinMeaning) : Bool := substr "2" m.beyging || substr "3" m.beyging

/-- `number = "ft" if "FT" in m.beyging else "et"`. -/
def formNumber (m : BinMeaning) : String := if substr "FT" m.beyging then "ft" else "et"

/-- `vset = {case, number}` plus `"gr"` when the form is definite. -/
def formVset (case_ : String) (m : BinMeaning) : Finset String :=
  if substr "gr" m.beyging then {case_, formNumber m, "gr"}
  else {case_, formNumber m}

/-- The body of the caching loop of `TermPair.inflect`: skip idiosyncratic
forms, cache `prefix + ordmynd` with the matching English number form under
the derived variant set. -/
def populateStep (pfx en_singular en_plural case_ : String) (c : Cache)
    (m : BinMeaning) : Cache :=
  if skipForm m then c
  else cacheSet c (formVset case_ m)
    (pfx ++ m.ordmynd, if formNumber m = "ft" then en_plural else en_singular)

/-- The cache produced by one lexicon query for `case_` (the loop of
`TermPair.inflect`). -/
def populateCache (tp : TermPair) (case_ : String) (forms : List BinMeaning) : Cache :=
  forms.foldl (populateStep tp.pfx tp.en_singular tp.en_plural case_) tp.cache

/-- `TermPair.inflect(variants)`.  Returns `none` on the `KeyError` raised by
popping a case from an empty set; otherwise `some (form?, updated pair,
number of lexicon queries performed)`. -/
def TermPair.inflect (lex : Lexicon) (tp : TermPair) (variants : Finset String) :
    Option (Option (String × String) × TermPair × Nat) :=
  match cacheGet tp.cache variants with
  | some form => some (some form, tp, 0)
  | none =>
    match popSet CASE_LIST (variants ∩ CASE_VARIANTS) with
    | none => none
    | some case_ =>
      let cache' := populateCache tp case_ (lex tp.lemmaStr tp.cat case_)
      some (cacheGet cache' variants, { tp with cache := cache' }, 1)

/-! ## Regex models

`re.search(r"{([0-9]+):([^\}]+)}", s)` and `re.sub(r"{[^\}]+}", "[*]", s)`
are implemented directly: a tag is a `\x7b`, one or more digits, a colon, one
or more non-`\x7d` characters and a closing `\x7d`. -/

/-- Try to match `\x7b[0-9]+:[^\x7d]+\x7d` at the head of the character list,
returning the two capture groups. -/
def tryTagAt : List Char → Option (List Char × List Char)
  | [] => none
  | c :: rest =>
    if c = '{' then
      if rest.takeWhile Char.isDigit = [] then none
      else
        match rest.dropWhile Char.isDigit with
        | ':' :: r3 =>
          if r3.takeWhile (fun ch => ch ≠ '}') = [] then none
          else
            match r3.dropWhile (fun ch => ch ≠ '}') with
            | '}' :: _ => some (rest.takeWhile Char.isDigit, r3.takeWhile (fun ch => ch ≠ '}'))
            | _ => none
        | _ => none
    else none

/-- Leftmost match of the placeholder-tag pattern (`re.search`). -/
def findTagChars : List Char → Option (List Char × List Char)
  | [] => none
  | c :: rest =>
    match tryTagAt (c :: rest) with
    | some r => some r
    | none => findTagChars rest

/-- `re.search(r"{([0-9]+):([^\}]+)}", s)`, returning groups 1 and 2. -/
def findTag (s : String) : Option (String × String) :=
  (findTagChars s.data).map (fun p => (String.mk p.1, String.mk p.2))

/-- Scanner for `re.sub(r"{[^\}]+}", "[*]", s)`.  The second argument is
`some acc` while inside a potential match that opened with `\x7b`, where
`acc` holds the body characters read so far, in reverse. -/
def rtAux : List Char → Option (List Char) → List Char
  | [], none => []
  | [], some acc => '{' :: acc.reverse
  | c :: rest, none =>
    if c = '{' then rtAux rest (some [])
    else c :: rtAux rest none
  | c :: rest, some acc =>
    if c = '}' then
      if acc = [] then '{' :: '}' :: rtAux rest none
      else '[' :: '*' :: ']' :: rtAux rest none
    else rtAux rest (some (c :: acc))

/-- `re.sub(r"{[^\}]+}", PLACEHOLDER, s)`: every braced group replaced by
the neutral marker. -/
def replaceTags (s : String) : String := String.mk (rtAux s.data none)

/-! ## Word matching (`re.findall(r"\b" + w + r"\b", sent, re.IGNORECASE)`)

Glossary regexes are always a literal word between two word boundaries; they
are modelled by the word string itself.  `\w` is modelled as ASCII
alphanumeric or underscore, and case-insensitivity via ASCII `toLower`. -/

/-- Regex `\w`. -/
def isWordChar (c : Char) : Bool := c.isAlphanum || c = '_'

/-- Case-insensitive character comparison. -/
def lowerEq (a b : Char) : Bool := a.toLower = b.toLower

/-- Does `\bw\b` match `s` at position `i` (case-insensitively)? -/
def wordMatchAt (w s : List Char) (i : Nat) : Bool :=
  decide (i + w.length ≤ s.length) &&
  (decide (i = 0) || !isWordChar (s.getD (i - 1) ' ')) &&
  (List.zipWith lowerEq w ((s.drop i).take w.length)).all id &&
  (decide (s.length ≤ i + w.length) || !isWordChar (s.getD (i + w.length) ' '))

/-- All match positions, left to right. -/
def wordPositions (w s : String) : List Nat :=
  (List.range s.data.length).filter (fun i => wordMatchAt w.data s.data i)

/-- `re.findall`: the matched slices, in their original capitalization. -/
def findallWord (w s : String) : List String :=
  (wordPositions w s).map (fun i => String.mk ((s.data.drop i).take w.data.length))

/-- `re.sub(regex, repl, s, count=1, flags=re.IGNORECASE)`: splice `repl`
over the first match of `\bw\b`, if any. -/
def subFirstWord (w repl s : String) : String :=
  match wordPositions w s with
  | [] => s
  | i :: _ => String.mk (s.data.take i ++ repl.data ++ s.data.drop (i + w.data.length))

/-! ## Template -/

/-- Modelled from the spec: the external `detokenize` collaborator renders an
ordered token list as a single text string; spacing is modelled as a single
space between adjacent tokens. -/
def detok : List String → String
  | [] => ""
  | [t] => t
  | t :: ts => t ++ " " ++ detok ts

/-- A sentence pair template (`class Template`).  Field names follow the
Python attributes (`caseTag` for `_case`). -/
structure Template where
  variants : Finset String
  gender : String
  caseTag : String
  number : String
  is_template : String
  en_template : String
  is_all_caps : Bool
  is_first_cap : Bool
  en_all_caps : Bool
  en_first_cap : Bool

/-- The class-wide defaults of `Template` (lines 236–245 of the source). -/
def Template.defaultT : Template :=
  { variants := ∅, gender := "", caseTag := "", number := "",
    is_template := "", en_template := "",
    is_all_caps := false, is_first_cap := false,
    en_all_caps := false, en_first_cap := false }

/-- The Icelandic-side placeholder tag `gender_case_number[_gr][_caps|_cap]`
built by `Template.create`. -/
def mkIsTag (gender case_ number : String) (gr caps cap : Bool) : String :=
  gender ++ "_" ++ case_ ++ "_" ++ number ++
  (if gr then "_gr" else "") ++
  (if caps then "_caps" else if cap then "_cap" else "")

/-- The English-side placeholder tag `sg|pl[_caps|_cap]`. -/
def mkEnTag (number : String) (caps cap : Bool) : String :=
  (if number = "ft" then "pl" else "sg") ++
  (if caps then "_caps" else if cap then "_cap" else "")

/-- `Template.create(sent, terminal, en_sent, en_word, en_word_regex)`.
The parsed sentence is its token list; the terminal is its token `index` and
variant set `tvariants`; `w` is the bare word of the English regex.
`none` models the exceptions create can raise (`KeyError` from popping an
absent gender/case/number, `IndexError` on the token list, and the
`assert self._en_template != en_sent`). -/
def Template.create (tokens : List String) (index : Nat) (tvariants : Finset String)
    (en_sent en_word w : String) : Option Template :=
  match popSet GENDER_LIST (tvariants ∩ GENDER_VARIANTS),
        popSet CASE_LIST (tvariants ∩ CASE_VARIANTS),
        popSet NUMBER_LIST (tvariants ∩ NUMBER_VARIANTS) with
  | some gender, some case_, some number =>
    match tokens.get? index with
    | none => none
    | some txt =>
      match txt.data.head?, en_word.data.head? with
      | some c0, some e0 =>
        let is_all_caps := pyIsUpper txt
        let is_first_cap := c0.isUpper
        let en_all_caps := pyIsUpper en_word
        let en_first_cap := e0.isUpper
        let is_placeholder :=
          mkIsTag gender case_ number (decide ("gr" ∈ tvariants)) is_all_caps is_first_cap
        let is_template := detok (tokens.set index ("\x7b0:" ++ is_placeholder ++ "\x7d"))
        let en_placeholder := mkEnTag number en_all_caps en_first_cap
        let en_template := subFirstWord w ("\x7b0:" ++ en_placeholder ++ "\x7d") en_sent
        if en_template = en_sent then none
        else
          some { variants := tvariants ∩ INTERESTING_VARIANTS,
                 gender := gender, caseTag := case_, number := number,
                 is_template := is_template, en_template := en_template,
                 is_all_caps := is_all_caps, is_first_cap := is_first_cap,
                 en_all_caps := en_all_caps, en_first_cap := en_first_cap }
      | _, _ => none
  | _, _, _ => none

/-- Icelandic side of `Template.load`: decode the tag (or fall back to
literal text when no tag is found); `none` models a failed `assert`. -/
def loadIsSide (is_template : String) (t : Template) : Option Template :=
  match findTag is_template with
  | some (g1, g2) =>
    if g1 = "0" then
      let vset : Finset String := (pySplit '_' g2).toFinset
      match singletonOf GENDER_LIST (vset ∩ GENDER_VARIANTS),
            singletonOf CASE_LIST (vset ∩ CASE_VARIANTS),
            singletonOf NUMBER_LIST (vset ∩ NUMBER_VARIANTS) with
      | some gender, some case_, some number =>
        some { t with
               variants := vset ∩ INTERESTING_VARIANTS,
               gender := gender, caseTag := case_, number := number,
               is_all_caps := decide ("caps" ∈ vset),
               is_first_cap := decide ("cap" ∈ vset),
               is_template := replaceTags is_template }
      | _, _, _ => none
    else none
  | none => some { t with is_template := is_template }

/-- English side of `Template.load`. -/
def loadEnSide (en_template : String) (t : Template) : Option Template :=
  match findTag en_template with
  | some (g1, g2) =>
    if g1 = "0" then
      let vset : Finset String := (pySplit '_' g2).toFinset
      some { t with
             en_all_caps := decide ("caps" ∈ vset),
             en_first_cap := decide ("cap" ∈ vset),
             en_template := replaceTags en_template }
    else none
  | none => some { t with en_template := en_template }

/-- `Template.load(is_template, en_template)`. -/
def Template.load (is_template en_template : String) : Option Template :=
  (loadIsSide is_template Template.defaultT).bind (loadEnSide en_template)

/-- `Template.write`: the tab-separated line written to the template file. -/
def Template.writeLine (t : Template) : String :=
  t.en_template ++ "\t" ++ t.is_template

/-- `Template.substitute(pair)`.  `none` models an exception escaping from
`pair.inflect`; otherwise the optional generated sentence pair together with
the updated term pair (whose cache may have grown). -/
def Template.substitute (lex : Lexicon) (t : Template) (pair : TermPair) :
    Option (Option (String × String) × TermPair) :=
  match TermPair.inflect lex pair t.variants with
  | none => none
  | some (none, pair', _) => some (none, pair')
  | some (some (is_term, en_term), pair', _) =>
    let is_term :=
      if t.is_all_caps then pyUpper is_term
      else if t.is_first_cap then pyCapitalize is_term
      else is_term
    let en_term :=
      if t.en_all_caps then pyUpper en_term
      else if t.en_first_cap then pyCapitalize en_term
      else en_term
    some (some (pyReplaceMarker t.is_template is_term,
                pyReplaceMarker t.en_template en_term), pair')

/-! ## TemplateCollection -/

/-- A collection of templates segregated by gender
(`defaultdict(list)` modelled as an insertion-ordered association list). -/
structure TemplateCollection where
  templates : List (String × List Template)

/-- `defaultdict.__getitem__`: the bucket for `g`, inserting an empty bucket
when the key is absent (this mutation is part of Python's `defaultdict`
semantics and happens on every lookup in `append` and `generate`). -/
def TemplateCollection.getDefault (tc : TemplateCollection) (g : String) :
    List Template × TemplateCollection :=
  match tc.templates.find? (fun e => decide (e.1 = g)) with
  | some e => (e.2, tc)
  | none => ([], ⟨tc.templates ++ [(g, [])]⟩)

/-- `TemplateCollection.append`: add a template to its gender bucket. -/
def TemplateCollection.append (tc : TemplateCollection) (t : Template) :
    TemplateCollection :=
  if tc.templates.any (fun e => decide (e.1 = t.gender)) then
    ⟨tc.templates.map (fun e => if e.1 = t.gender then (e.1, e.2 ++ [t]) else e)⟩
  else
    ⟨tc.templates ++ [(t.gender, [t])]⟩

/-- Python `line.split("\t", maxsplit=1)` followed by unpacking into two
names; `none` models the `ValueError` when there is no tab. -/
def splitFirstTab (s : String) : Option (String × String) :=
  let pre := s.data.takeWhile (fun c => c ≠ '\t')
  match s.data.dropWhile (fun c => c ≠ '\t') with
  | '\t' :: rest => some (String.mk pre, String.mk rest)
  | _ => none

/-- `TemplateCollection.read` over a list of input lines; `none` models an
exception (malformed line or a failed `assert` inside `Template.load`). -/
def TemplateCollection.readAux (tc : TemplateCollection) :
    List String → Option TemplateCollection
  | [] => some tc
  | line :: rest =>
    let l := pyStrip line
    if l = "" then TemplateCollection.readAux tc rest
    else
      match splitFirstTab l with
      | none => none
      | some (en_t, is_t) =>
        match Template.load is_t en_t with
        | none => none
        | some t => TemplateCollection.readAux (tc.append t) rest

/-- `TemplateCollection` built by `read` from an input file. -/
def TemplateCollection.read (lines : List String) : Option TemplateCollection :=
  TemplateCollection.readAux ⟨[]⟩ lines

/-- Partial Fisher–Yates selection: `k` draws without replacement from
`pool`, the random source modelled as a stream `rand` of numbers (reduced
into range by `%`). -/
def drawIndices (rand : Nat → Nat) : Nat → List Nat → Nat → List Nat
  | 0, _, _ => []
  | k + 1, pool, step =>
    if pool.length = 0 then []
    else
      let i := rand step % pool.length
      pool.getD i 0 :: drawIndices rand k (pool.eraseIdx i) (step + 1)

/-- `random.sample(range(n), k)`: `k` distinct positions among `n`, or the
`ValueError` raised when the sample is larger than the population. -/
def sampleK (rand : Nat → Nat) (n k : Nat) : Except String (List Nat) :=
  if k ≤ n then Except.ok (drawIndices rand k (List.range n) 0)
  else Except.error "Sample larger than population or is negative"

/-- Outcome of `TemplateCollection.generate`: the yielded sentence pairs and
final term-pair state, a `ValueError` (empty bucket or over-large sample), or
an exception escaping from `substitute`. -/
inductive GenResult where
  | ok (pairs : List (String × String)) (pair : TermPair)
  | valueError (msg : String)
  | keyError
  deriving Inhabited

/-- The generation loop body: substitute the term pair into each sampled
template, silently skipping templates whose substitution is unavailable,
threading the term pair's cache. -/
def substLoop (lex : Lexicon) : List Template → TermPair →
    Option (List (String × String) × TermPair)
  | [], tp => some ([], tp)
  | t :: ts, tp =>
    match Template.substitute lex t tp with
    | none => none
    | some (none, tp') => substLoop lex ts tp'
    | some (some s, tp') =>
      (substLoop lex ts tp').map (fun r => (s :: r.1, r.2))

/-- Package the loop outcome as a `GenResult`. -/
def substResult (lex : Lexicon) (ts : List Template) (pair : TermPair) : GenResult :=
  match substLoop lex ts pair with
  | none => GenResult.keyError
  | some (l, tp') => GenResult.ok l tp'

/-- The message of the `ValueError` raised on an empty gender bucket. -/
def noTemplateMsg (g : String) : String :=
  "No template available for the '" ++ g ++ "' gender"

/-- `TemplateCollection.generate(pair, count)`: look up the gender bucket
(inserting an empty one if absent), fail on an empty bucket, sample `count`
distinct templates and substitute into each.  Returns the (possibly mutated)
collection together with the outcome. -/
def TemplateCollection.generate (lex : Lexicon) (rand : Nat → Nat)
    (tc : TemplateCollection) (pair : TermPair) (count : Nat) :
    TemplateCollection × GenResult :=
  match TemplateCollection.getDefault tc pair.gender with
  | (templates, tc') =>
    if templates.isEmpty then
      (tc', GenResult.valueError (noTemplateMsg pair.gender))
    else
      match sampleK rand templates.length count with
      | Except.error e => (tc', GenResult.valueError e)
      | Except.ok idxs =>
        (tc', substResult lex (idxs.map (fun i => templates.getD i Template.defaultT)) pair)

/-! ## TemplateCollector -/

/-- A terminal of a parsed sentence, with the attributes the source reads
(`lemmaTxt` for `.lemma`). -/
structure Terminal where
  index : Nat
  text : String
  category : String
  lemmaTxt : String
  variants : Finset String

/-- A parsed sentence: an ordered token list and a terminal list. -/
structure Sent where
  tokens : List String
  terminals : List Terminal

/-- The parser collaborator: `none` when the text does not parse (or the
parse exposes no terminal list). -/
abbrev Parser : Type := String → Option Sent

/-- The extraction glossary: lemma to candidate (singular, plural) English
word pairs (regexes modelled by their bare words). -/
abbrev Glossary : Type := List (String × List (String × String))

/-- Python dict `.get` on the glossary. -/
def glossaryGet (g : Glossary) (lemmaArg : String) :
    Option (List (String × String)) :=
  (g.find? (fun e => decide (e.1 = lemmaArg))).map (fun e => e.2)

/-- The candidate-disambiguation `for ... else` loop of
`TemplateCollector.run` (lines 473–496): `count` one-matchers seen so far,
`target`/`regex` the current target word and its pattern.  Returns the
matched target and pattern exactly when the loop completes with
`count == 1`. -/
def candGo (is_plural : Bool) (en_sent : String) :
    List (String × String) → Nat → String → String → Option (String × String)
  | [], count, target, regexW =>
    if count = 1 then some (target, regexW) else none
  | cand :: rest, count, target, regexW =>
    let w := if is_plural then cand.2 else cand.1
    match findallWord w en_sent with
    | [] => candGo is_plural en_sent rest count target regexW
    | m1 :: ms =>
      if ms.length + 1 > 1 then none
      else if count + 1 > 1 then none
      else candGo is_plural en_sent rest (count + 1) m1 w

/-- Process one terminal of a parsed sentence against the glossary
(lines 456–502).  `none` models an exception (`assert target_word` with an
empty match, or an exception inside `Template.create`); `some none` means no
template is emitted for this terminal; `some (some t)` means `t` is created
and written. -/
def processNoun (glossary : Glossary) (tokens : List String) (en_sent : String)
    (t : Terminal) : Option (Option Template) :=
  if t.category ≠ "no" then some none
  else if t.text.data.contains ' ' then some none
  else
    match glossaryGet glossary t.lemmaTxt with
    | none => some none
    | some en_lemmas =>
      let is_plural := decide ("ft" ∈ t.variants)
      match candGo is_plural en_sent en_lemmas 0 "" "" with
      | none => some none
      | some (target, w) =>
        if target = "" then none
        else
          match Template.create tokens t.index t.variants en_sent target w with
          | none => none
          | some tpl => some (some tpl)

/-- Process all terminals of one parsed sentence, collecting the templates
written to the output stream (in order). -/
def processTerminals (glossary : Glossary) (tokens : List String)
    (en_sent : String) : List Terminal → Option (List Template)
  | [] => some []
  | t :: ts =>
    match processNoun glossary tokens en_sent t with
    | none => none
    | some none => processTerminals glossary tokens en_sent ts
    | some (some tpl) =>
      (processTerminals glossary tokens en_sent ts).map (fun l => tpl :: l)

/-- Statistics of one extraction run: the templates written, the number of
parser invocations, and the number of lines that parsed successfully (the
count the `MAX_LINES` budget is checked against). -/
structure RunResult where
  written : List Template
  parserCalls : Nat
  parsedLines : Nat

/-- The main loop of `TemplateCollector.run` over the input lines, with the
running value of `cnt`.  `none` models an exception (a line without exactly
one tab, or an exception while processing a terminal). -/
def runAux (parse : Parser) (glossary : Glossary) :
    List String → Nat → Option RunResult
  | [], _ => some ⟨[], 0, 0⟩
  | line :: rest, cnt =>
    if (pyStrip line) = "" then runAux parse glossary rest cnt
    else
      match pySplit '\t' (pyStrip line) with
      | [en_sent, is_sent] =>
        match parse is_sent with
        | none =>
          (runAux parse glossary rest cnt).map
            (fun r => ⟨r.written, r.parserCalls + 1, r.parsedLines⟩)
        | some sent =>
          match processTerminals glossary sent.tokens en_sent sent.terminals with
          | none => none
          | some tpls =>
            if cnt + 1 ≥ MAX_LINES then some ⟨tpls, 1, 1⟩
            else
              (runAux parse glossary rest (cnt + 1)).map
                (fun r => ⟨tpls ++ r.written, r.parserCalls + 1, r.parsedLines + 1⟩)
      | _ => none

/-- `TemplateCollector.run` over the input lines. -/
def TemplateCollector.run (parse : Parser) (glossary : Glossary)
    (lines : List String) : Option RunResult :=
  runAux parse glossary lines 0

/-! ## Predicates and fixtures used by the verification statements -/

/-- A character list free of both brace characters. -/
def braceFree (l : List Char) : Prop := ∀ ch ∈ l, ch ≠ '{' ∧ ch ≠ '}'

/-- Number of positions at which the neutral placeholder marker occurs. -/
def markerCount (s : String) : Nat :=
  ((Finset.range s.data.length).filter
    (fun i => PLACEHOLDER.data.isPrefixOf (s.data.drop i) = true)).card

/-- A glossary word as the extraction pipeline builds its regexes from it:
nonempty and consisting of word characters only. -/
def wordCharsOnly (w : String) : Prop :=
  w ≠ "" ∧ ∀ ch ∈ w.data, isWordChar ch = true

/-- The word selected from a candidate pair by the plural flag. -/
def candWord (is_plural : Bool) (cand : String × String) : String :=
  if is_plural then cand.2 else cand.1

/-- The disambiguation condition of the extraction loop: exactly one
candidate pattern matches the English sentence at all, and no candidate
pattern matches more than once. -/
def uniqueMatchCond (en_lemmas : List (String × String)) (is_plural : Bool)
    (en_sent : String) : Prop :=
  en_lemmas.countP (fun c => !(findallWord (candWord is_plural c) en_sent).isEmpty) = 1 ∧
  ∀ c ∈ en_lemmas, (findallWord (candWord is_plural c) en_sent).length ≤ 1

/-- Every Icelandic form stored in the cache is the compound prefix
prepended verbatim to an inflected form of the working lemma returned by
the lexicon. -/
def cachePrefixed (lex : Lexicon) (tp : TermPair) : Prop :=
  ∀ e ∈ tp.cache, ∃ case_ m, m ∈ lex tp.lemmaStr tp.cat case_ ∧
    skipForm m = false ∧ e.2.1 = tp.pfx ++ m.ordmynd

/-- The number of sentence pairs yielded by a successful generation. -/
def GenResult.yieldCount : GenResult → Option Nat
  | GenResult.ok l _ => some l.length
  | _ => none

/-- Concrete lexicon fixture: nominative forms of `hundur` (kk). -/
def lexHundur : Lexicon := fun l c cs =>
  if l = "hundur" && c = "kk" && cs = "nf" then
    [⟨"hundur", "kk", "hundur", "NFET"⟩,
     ⟨"hundur", "kk", "hundurinn", "NFETgr"⟩,
     ⟨"hundur", "kk", "hundar", "NFFT"⟩]
  else []

/-- Concrete lexicon fixture answering every query with one singular form. -/
def lexEtOnly : Lexicon := fun _ _ _ => [⟨"hundur", "kk", "hundur", "NFET"⟩]

/-- Concrete lexicon fixture answering every query with no forms. -/
def lexEmpty : Lexicon := fun _ _ _ => []

/-- Concrete term pair fixture (fresh cache). -/
def tpHundur : TermPair := ⟨"hundur", "kk", "", "dog", "dogs", []⟩

/-- Template fixture: nominative-singular masculine template. -/
def tplNf : Template :=
  (Template.load "\x7b0:kk_nf_et\x7d a" "x \x7b0:sg\x7d").getD Template.defaultT

/-- Template fixture: accusative-singular masculine template. -/
def tplThf : Template :=
  (Template.load "\x7b0:kk_þf_et\x7d b" "y \x7b0:sg\x7d").getD Template.defaultT

/-- Collection fixture with one masculine bucket of two templates. -/
def tcTwo : TemplateCollection := ⟨[("kk", [tplNf, tplThf])]⟩

/-- Deterministic random stream fixture. -/
def rand0 : Nat → Nat := fun _ => 0

/-- An all-caps extraction fixture (`Template.create` on an upper-case noun). -/
def createdCaps : Option Template :=
  Template.create ["HUNDUR", "hleypur", "hratt"] 0 {"kk", "nf", "et"}
    "The DOG runs fast" "DOG" "dog"

/-- The round trip of `createdCaps` through `write`/`load`. -/
def loadedCaps : Option Template :=
  createdCaps.bind (fun t => Template.load t.is_template t.en_template)

/-- Glossary fixture mapping `hundur` to the single candidate `dog`. -/
def glossDog : Glossary := [("hundur", [("dog", "dogs")])]

/-- A noun terminal whose surface text contains a space. -/
def termSpace : Terminal := ⟨0, "a b", "no", "hundur", {"kk", "nf", "et"}⟩

/-- A single-token noun terminal fixture. -/
def termGood : Terminal := ⟨0, "Hundur", "no", "hundur", {"kk", "nf", "et"}⟩

/-- Lemma-lookup fixture resolving `dvergur` to the compound stem
`rauð-dvergur`. -/
def lookupDvergur : LemmaLookup := fun l =>
  if l = "dvergur" then [⟨"rauð-dvergur", "kk", "rauð-dvergur", "NFET"⟩] else []

/-! ## Helper lemmas -/

theorem popSet_empty (vocab : List String) : popSet vocab (∅ : Finset String) = none := by
  simp [popSet]

theorem popSet_eq_some (vocab : List String) (s : Finset String) (c : String)
    (h : popSet vocab s = some c) : c ∈ s ∧ c ∈ vocab := by
  unfold popSet at h
  cases hf : vocab.filter (fun v => decide (v ∈ s)) with
  | nil => rw [hf] at h; cases h
  | cons a l =>
    rw [hf] at h
    have hca : a = c := by simpa using h
    have hmem : c ∈ vocab.filter (fun v => decide (v ∈ s)) := by
      rw [hf, ← hca]; exact List.mem_cons_self _ _
    have hmf := List.mem_filter.mp hmem
    exact ⟨by simpa using hmf.2, hmf.1⟩

theorem popSet_singleton (vocab : List String) (a : String) (ha : a ∈ vocab) :
    popSet vocab {a} = some a := by
  unfold popSet
  induction vocab with
  | nil => cases ha
  | cons v vs ih =>
    rw [List.filter_cons]
    by_cases hv : v ∈ ({a} : Finset String)
    · have hva : v = a := by simpa using hv
      subst hva
      simp [hv]
    · have ha' : a ∈ vs := by
        rcases List.mem_cons.mp ha with h | h
        · exact absurd h.symm (by simpa using hv)
        · exact h
      rw [if_neg (by simpa using hv)]
      exact ih ha'

theorem cacheGet_nil (k : Finset String) : cacheGet [] k = none := rfl

/-! ## C10: inflect on a caseless signature -/

/-- C10 (counterexample): the claim says the `None` return of `inflect` is
only reachable for signatures containing exactly one case; but on a cold
cache a signature with two cases also returns `None` without an exception. -/
theorem c10_counterexample :
    (TermPair.inflect lexEmpty tpHundur {"nf", "þf", "et"}).map (fun r => r.1) =
      some none ∧
    (({"nf", "þf", "et"} : Finset String) ∩ CASE_VARIANTS).card = 2 := by
  constructor
  · rfl
  · decide

/-- C10 (amended): on a cold cache, `inflect` raises an unhandled exception
(pop from an empty set) instead of returning `None` whenever the signature
contains no case tag — as happens when `substitute` is invoked on a Template
whose source side was loaded without a recognized tag, leaving the
class-default empty signature — and the `None` return is only reachable for
signatures containing at least one case. -/
theorem c10_caseless_crash (lex : Lexicon) (tp : TermPair) (hc : tp.cache = []) :
    (∀ variants : Finset String,
      (variants ∩ CASE_VARIANTS = ∅ → TermPair.inflect lex tp variants = none) ∧
      (∀ res tp' q, TermPair.inflect lex tp variants = some (res, tp', q) →
        (variants ∩ CASE_VARIANTS).Nonempty)) ∧
    (∀ s e : String, findTag s = none → findTag e = none →
      ∃ t, Template.load s e = some t ∧ t.variants = ∅ ∧
        Template.substitute lex t tp = none) := by
  have hget : ∀ v : Finset String, cacheGet tp.cache v = none := by
    intro v; rw [hc]; rfl
  have main : ∀ variants : Finset String,
      (variants ∩ CASE_VARIANTS = ∅ → TermPair.inflect lex tp variants = none) ∧
      (∀ res tp' q, TermPair.inflect lex tp variants = some (res, tp', q) →
        (variants ∩ CASE_VARIANTS).Nonempty) := by
    intro variants
    constructor
    · intro hvc
      unfold TermPair.inflect
      rw [hget, hvc, popSet_empty]
    · intro res tp' q hres
      unfold TermPair.inflect at hres
      rw [hget] at hres
      cases hpop : popSet CASE_LIST (variants ∩ CASE_VARIANTS) with
      | none => rw [hpop] at hres; cases hres
      | some c => exact ⟨c, (popSet_eq_some _ _ _ hpop).1⟩
  refine ⟨main, ?_⟩
  intro s e hs he
  refine ⟨{ Template.defaultT with is_template := s, en_template := e }, ?_, rfl, ?_⟩
  · unfold Template.load loadIsSide loadEnSide
    rw [hs, he]
    rfl
  · unfold Template.substitute
    have : TermPair.inflect lex tp (∅ : Finset String) = none := by
      have := (main ∅).1
      simpa [Finset.empty_inter] using this
    rw [show ({ Template.defaultT with is_template := s, en_template := e} : Template).variants = (∅ : Finset String) from rfl, this]

/-- C10 witness: a concrete caseless signature makes `inflect` raise. -/
theorem c10_witness :
    TermPair.inflect lexEmpty tpHundur ({"et"} : Finset String) = none :=
  ((c10_caseless_crash lexEmpty tpHundur rfl).1 {"et"}).1 (by decide)

/-! ## C9: generate and the gender mapping -/

theorem getDefault_snd (tc : TemplateCollection) (g : String) :
    (TemplateCollection.getDefault tc g).2.templates =
      if tc.templates.any (fun e => decide (e.1 = g)) then tc.templates
      else tc.templates ++ [(g, [])] := by
  unfold TemplateCollection.getDefault
  cases hf : tc.templates.find? (fun e => decide (e.1 = g)) with
  | some e =>
    have hp := List.find?_some hf
    have hm := List.mem_of_find?_eq_some hf
    have : tc.templates.any (fun e => decide (e.1 = g)) = true :=
      List.any_eq_true.mpr ⟨e, hm, hp⟩
    simp [this]
  | none =>
    have : tc.templates.any (fun e => decide (e.1 = g)) = false := by
      rw [List.any_eq_false]
      intro x hx
      exact List.find?_eq_none.mp hf x hx
    simp [this]

/-- C9 (counterexample): the claim says `generate` leaves the gender mapping
unchanged, including its key set; but querying a gender that has no bucket
inserts a fresh key with an empty bucket (Python `defaultdict` semantics),
so the key set of a collection built by `read` changes. -/
theorem c9_counterexample :
    ∃ tc, TemplateCollection.read [] = some tc ∧
      ((TemplateCollection.generate lexEmpty rand0 tc tpHundur 1).1).templates.map
          Prod.fst ≠
        tc.templates.map Prod.fst :=
  ⟨⟨[]⟩, rfl, by decide⟩

/-- C9 (amended): `generate` leaves every existing bucket and its contents
unchanged; the only possible change to the mapping is the insertion of an
empty bucket under the queried gender when that key was absent. -/
theorem c9_generate_readonly (lex : Lexicon) (rand : Nat → Nat)
    (tc : TemplateCollection) (pair : TermPair) (count : Nat) :
    ((TemplateCollection.generate lex rand tc pair count).1).templates =
      if tc.templates.any (fun e => decide (e.1 = pair.gender)) then tc.templates
      else tc.templates ++ [(pair.gender, [])] := by
  rw [← getDefault_snd tc pair.gender]
  unfold TemplateCollection.generate
  rcases hgd : TemplateCollection.getDefault tc pair.gender with ⟨ts, tc'⟩
  simp only
  split
  · rfl
  · split
    · rfl
    · rfl

/-! ## C5: inflect caching -/

theorem cacheGet_cacheSet_self (c : Cache) (k : Finset String) (v : String × String) :
    cacheGet (cacheSet c k v) k = some v := by
  unfold cacheSet
  by_cases h : c.any (fun e => decide (e.1 = k)) = true
  · rw [if_pos h]
    induction c with
    | nil => cases h
    | cons a as ih =>
      rw [List.map_cons]
      by_cases ha : a.1 = k
      · unfold cacheGet
        rw [if_pos ha]
        simp
      · rw [List.any_cons] at h
        have has : as.any (fun e => decide (e.1 = k)) = true := by
          rcases Bool.or_eq_true_iff.mp h with h1 | h1
          · exact absurd (of_decide_eq_true h1) ha
          · exact h1
        have ihr := ih has
        unfold cacheGet at ihr ⊢
        rw [if_neg ha, List.find?_cons_of_neg _ (by simpa using ha)]
        exact ihr
  · rw [if_neg h]
    have hall : ∀ e ∈ c, ¬ (e.1 = k) := by
      intro e he heq
      exact h (List.any_eq_true.mpr ⟨e, he, decide_eq_true heq⟩)
    induction c with
    | nil =>
      unfold cacheGet
      simp
    | cons a as ih =>
      unfold cacheGet
      rw [List.cons_append,
          List.find?_cons_of_neg _ (by simpa using hall a (List.mem_cons_self _ _))]
      exact ih (by intro h'; exact h (by rw [List.any_cons, h']; simp))
        (fun e he => hall e (List.mem_cons_of_mem _ he))

theorem cacheGet_cacheSet_ne (c : Cache) (k k' : Finset String) (v : String × String)
    (hne : k' ≠ k) : cacheGet (cacheSet c k v) k' = cacheGet c k' := by
  unfold cacheSet
  by_cases h : c.any (fun e => decide (e.1 = k)) = true
  · rw [if_pos h]
    clear h
    induction c with
    | nil => rfl
    | cons a as ih =>
      rw [List.map_cons]
      unfold cacheGet
      by_cases ha : a.1 = k
      · rw [if_pos ha]
        rw [List.find?_cons_of_neg _ (by simpa using hne.symm),
            List.find?_cons_of_neg _ (by rw [ha]; simpa using hne.symm)]
        exact ih
      · rw [if_neg ha]
        by_cases ha' : a.1 = k'
        · rw [List.find?_cons_of_pos _ (by simpa using ha'),
              List.find?_cons_of_pos _ (by simpa using ha')]
        · rw [List.find?_cons_of_neg _ (by simpa using ha'),
              List.find?_cons_of_neg _ (by simpa using ha')]
          exact ih
  · rw [if_neg h]
    unfold cacheGet
    rw [List.find?_append]
    cases hf : c.find? (fun e => decide (e.1 = k')) with
    | some e => simp
    | none =>
      simp only [Option.none_or]
      rw [List.find?_cons_of_neg _ (by simpa using hne.symm)]
      simp

theorem populate_preserve (px es ep cs : String) (forms : List BinMeaning) :
    ∀ (c : Cache) (k : Finset String), (cacheGet c k).isSome = true →
      (cacheGet (forms.foldl (populateStep px es ep cs) c) k).isSome = true := by
  induction forms with
  | nil => intro c k h; exact h
  | cons m ms ih =>
    intro c k h
    rw [List.foldl_cons]
    apply ih
    unfold populateStep
    by_cases hs : skipForm m = true
    · rw [if_pos hs]; exact h
    · rw [if_neg hs]
      by_cases hk : k = formVset cs m
      · rw [hk, cacheGet_cacheSet_self]; rfl
      · rw [cacheGet_cacheSet_ne _ _ _ _ hk]; exact h

theorem populate_covers (px es ep cs : String) (forms : List BinMeaning) :
    ∀ (c : Cache) (m : BinMeaning), m ∈ forms → skipForm m = false →
      (cacheGet (forms.foldl (populateStep px es ep cs) c) (formVset cs m)).isSome = true := by
  induction forms with
  | nil => intro c m h; cases h
  | cons m0 ms ih =>
    intro c m hm hsk
    rw [List.foldl_cons]
    rcases List.mem_cons.mp hm with h | h
    · subst h
      apply populate_preserve
      unfold populateStep
      rw [if_neg (by rw [hsk]; exact Bool.false_ne_true), cacheGet_cacheSet_self]
      rfl
    · exact ih _ m h hsk

/-- C5 (counterexample): the claim says the first missing call's single
lexicon query populates the cache for all number/definiteness combinations
of the case, after which a second call with the same signature performs no
further query; but when the requested signature is unrealizable (here
`{nf, ft}` against a lexicon that only returns a singular form), it is never
cached, and the second call performs another lexicon query (query count 1,
not 0). -/
theorem c5_counterexample :
    (TermPair.inflect lexEtOnly tpHundur {"nf", "ft"}).map (fun r => (r.1, r.2.2)) =
      some (none, 1) ∧
    ((TermPair.inflect lexEtOnly tpHundur {"nf", "ft"}).bind
        (fun r => TermPair.inflect lexEtOnly r.2.1 {"nf", "ft"})).map
        (fun r => (r.1, r.2.2)) =
      some (none, 1) := by
  constructor
  · rfl
  · rfl

/-- C5 (amended): a first call to `inflect` that misses the cache performs
exactly one lexicon query and populates the cache for every
number/definiteness combination the lexicon returns for the popped case
(idiosyncratic forms excluded); and whenever a call returns a form, a second
call with the same signature returns the identical result with no lexicon
query. -/
theorem c5_caching (lex : Lexicon) (tp : TermPair) (variants : Finset String) :
    (∀ case_, cacheGet tp.cache variants = none →
      popSet CASE_LIST (variants ∩ CASE_VARIANTS) = some case_ →
      TermPair.inflect lex tp variants =
        some (cacheGet (populateCache tp case_ (lex tp.lemmaStr tp.cat case_)) variants,
              { tp with cache := populateCache tp case_ (lex tp.lemmaStr tp.cat case_) },
              1) ∧
      ∀ m ∈ lex tp.lemmaStr tp.cat case_, skipForm m = false →
        (cacheGet (populateCache tp case_ (lex tp.lemmaStr tp.cat case_))
            (formVset case_ m)).isSome = true) ∧
    (∀ res tp' q, TermPair.inflect lex tp variants = some (some res, tp', q) →
      TermPair.inflect lex tp' variants = some (some res, tp', 0)) := by
  constructor
  · intro case_ hmiss hpop
    constructor
    · unfold TermPair.inflect
      rw [hmiss, hpop]
    · intro m hm hsk
      exact populate_covers _ _ _ _ _ tp.cache m hm hsk
  · intro res tp' q hres
    unfold TermPair.inflect at hres
    cases hg : cacheGet tp.cache variants with
    | some f =>
      rw [hg] at hres
      cases hres
      unfold TermPair.inflect
      rw [hg]
    | none =>
      rw [hg] at hres
      cases hpop : popSet CASE_LIST (variants ∩ CASE_VARIANTS) with
      | none => rw [hpop] at hres; cases hres
      | some case_ =>
        rw [hpop] at hres
        simp only [Option.some.injEq, Prod.mk.injEq] at hres
        obtain ⟨h1, h2, h3⟩ := hres
        unfold TermPair.inflect
        rw [← h2, h1]

/-- C5 witness: a warm second call on a realizable signature returns the
identical cached pair with no lexicon query. -/
theorem c5_witness :
    TermPair.inflect lexHundur
        { tpHundur with
          cache := populateCache tpHundur "nf" (lexHundur "hundur" "kk" "nf") }
        {"nf", "et"} =
      some (some ("hundur", "dog"),
            { tpHundur with
              cache := populateCache tpHundur "nf" (lexHundur "hundur" "kk" "nf") },
            0) :=
  (c5_caching lexHundur tpHundur {"nf", "et"}).2 ("hundur", "dog")
    { tpHundur with
      cache := populateCache tpHundur "nf" (lexHundur "hundur" "kk" "nf") }
    1 (by rfl)

/-! ## C2: the MAX_LINES budget -/

theorem runAux_parsed_le (parse : Parser) (glossary : Glossary) :
    ∀ (lines : List String) (cnt : Nat) (r : RunResult),
      cnt < MAX_LINES → runAux parse glossary lines cnt = some r →
      cnt + r.parsedLines ≤ MAX_LINES := by
  intro lines
  induction lines with
  | nil =>
    intro cnt r h hr
    unfold runAux at hr
    cases hr
    show cnt + 0 ≤ MAX_LINES
    omega
  | cons line rest ih =>
    intro cnt r h hr
    unfold runAux at hr
    split at hr
    · exact ih cnt r h hr
    · split at hr
      · split at hr
        · rw [Option.map_eq_some'] at hr
          obtain ⟨r', hr', rfl⟩ := hr
          have := ih cnt r' h hr'
          simpa using this
        · split at hr
          · cases hr
          · split at hr
            · cases hr
              show cnt + 1 ≤ MAX_LINES
              omega
            · rw [Option.map_eq_some'] at hr
              obtain ⟨r', hr', rfl⟩ := hr
              have hlt : cnt + 1 < MAX_LINES := by omega
              have := ih (cnt + 1) r' hlt hr'
              simp only
              omega
      · cases hr

/-- C2 (counterexample): the claim says `run` consumes at most `MAX_LINES`
non-blank lines, so the parser is invoked at most `MAX_LINES` times
regardless of parse failures; but unparsable lines never increment `cnt`,
so a corpus of `MAX_LINES + 1` non-blank unparsable lines is consumed in
full and the parser is invoked `MAX_LINES + 1 > MAX_LINES` times. -/
theorem c2_counterexample :
    TemplateCollector.run (fun _ => none) []
        (List.replicate (MAX_LINES + 1) "a\tb") =
      some ⟨[], MAX_LINES + 1, 0⟩ ∧
    MAX_LINES + 1 > MAX_LINES := by
  refine ⟨?_, by omega⟩
  have key : ∀ (n cnt : Nat),
      runAux (fun _ => none) [] (List.replicate n "a\tb") cnt = some ⟨[], n, 0⟩ := by
    intro n
    induction n with
    | zero => intro cnt; rfl
    | succ k ih =>
      intro cnt
      rw [List.replicate_succ]
      unfold runAux
      rw [if_neg (by decide)]
      rw [show pySplit '\t' (pyStrip "a\tb") = ["a", "b"] from by decide]
      dsimp only
      rw [ih cnt]
      rfl
  exact key (MAX_LINES + 1) 0

/-- C2 (amended): `TemplateCollector.run` consumes at most `MAX_LINES`
*successfully parsed* lines — `cnt` only counts lines whose Icelandic side
parses, so the parser itself may be invoked once per non-blank line without
bound when lines fail to parse. -/
theorem c2_budget (parse : Parser) (glossary : Glossary) (lines : List String)
    (r : RunResult) (h : TemplateCollector.run parse glossary lines = some r) :
    r.parsedLines ≤ MAX_LINES := by
  have := runAux_parsed_le parse glossary lines 0 r (by norm_num [MAX_LINES]) h
  omega

/-- C2 witness: a concrete one-line run stays within the parsed-line budget. -/
theorem c2_witness :
    TemplateCollector.run (fun _ => none) [] ["a\tb"] = some ⟨[], 1, 0⟩ ∧
    RunResult.parsedLines ⟨[], 1, 0⟩ ≤ MAX_LINES :=
  ⟨rfl, c2_budget (fun _ => none) [] ["a\tb"] ⟨[], 1, 0⟩ rfl⟩

/-! ## C3 and C6: sampling and substitution in generate -/

theorem drawIndices_length (rand : Nat → Nat) :
    ∀ (k : Nat) (pool : List Nat) (step : Nat), k ≤ pool.length →
      (drawIndices rand k pool step).length = k := by
  intro k
  induction k with
  | zero => intro pool step h; rfl
  | succ n ih =>
    intro pool step h
    unfold drawIndices
    have hp : ¬ pool.length = 0 := by omega
    rw [if_neg hp]
    have hlt : rand step % pool.length < pool.length := Nat.mod_lt _ (by omega)
    have : (pool.eraseIdx (rand step % pool.length)).length = pool.length - 1 :=
      List.length_eraseIdx_of_lt hlt
    simp only [List.length_cons]
    rw [ih _ (step + 1) (by omega)]

theorem drawIndices_subset (rand : Nat → Nat) :
    ∀ (k : Nat) (pool : List Nat) (step : Nat) (x : Nat),
      x ∈ drawIndices rand k pool step → x ∈ pool := by
  intro k
  induction k with
  | zero => intro pool step x h; cases h
  | succ n ih =>
    intro pool step x h
    unfold drawIndices at h
    by_cases hp : pool.length = 0
    · rw [if_pos hp] at h; cases h
    · rw [if_neg hp] at h
      have hlt : rand step % pool.length < pool.length := Nat.mod_lt _ (by omega)
      rcases List.mem_cons.mp h with h1 | h1
      · subst h1
        rw [List.getD_eq_getElem _ _ hlt]
        exact List.getElem_mem hlt
      · exact List.mem_of_mem_eraseIdx (ih _ _ x h1)

theorem drawIndices_nodup (rand : Nat → Nat) :
    ∀ (k : Nat) (pool : List Nat) (step : Nat), pool.Nodup →
      (drawIndices rand k pool step).Nodup := by
  intro k
  induction k with
  | zero => intro pool step h; exact List.nodup_nil
  | succ n ih =>
    intro pool step hnd
    unfold drawIndices
    by_cases hp : pool.length = 0
    · rw [if_pos hp]; exact List.nodup_nil
    · rw [if_neg hp]
      have hlt : rand step % pool.length < pool.length := Nat.mod_lt _ (by omega)
      refine List.nodup_cons.mpr ⟨?_, ih _ _ (List.Nodup.eraseIdx _ hnd)⟩
      intro hmem
      have hmem' := drawIndices_subset rand n _ (step + 1) _ hmem
      rw [List.getD_eq_getElem _ _ hlt] at hmem'
      obtain ⟨i, hi, hne, hieq⟩ := List.mem_eraseIdx_iff_getElem.mp hmem'
      have := (List.Nodup.getElem_inj_iff hnd).mp hieq
      exact hne this

/-- C3: `generate` fails with the no-template error on an empty gender
bucket, fails with the sample-size error (no silent truncation) when the
count exceeds the bucket size, and otherwise draws exactly `count` distinct
bucket positions, so no two outputs derive from the same Template. -/
theorem c3_sampling (lex : Lexicon) (rand : Nat → Nat) (tc : TemplateCollection)
    (pair : TermPair) (count : Nat) :
    ((TemplateCollection.getDefault tc pair.gender).1 = [] →
      (TemplateCollection.generate lex rand tc pair count).2 =
        GenResult.valueError (noTemplateMsg pair.gender)) ∧
    ((TemplateCollection.getDefault tc pair.gender).1 ≠ [] →
      (TemplateCollection.getDefault tc pair.gender).1.length < count →
      (TemplateCollection.generate lex rand tc pair count).2 =
        GenResult.valueError "Sample larger than population or is negative") ∧
    ((TemplateCollection.getDefault tc pair.gender).1 ≠ [] →
      count ≤ (TemplateCollection.getDefault tc pair.gender).1.length →
      ∃ idxs : List Nat, idxs.Nodup ∧ idxs.length = count ∧
        (∀ i ∈ idxs, i < (TemplateCollection.getDefault tc pair.gender).1.length) ∧
        (TemplateCollection.generate lex rand tc pair count).2 =
          substResult lex
            (idxs.map (fun i =>
              (TemplateCollection.getDefault tc pair.gender).1.getD i
                Template.defaultT))
            pair) := by
  unfold TemplateCollection.generate
  rcases hgd : TemplateCollection.getDefault tc pair.gender with ⟨ts, tc'⟩
  simp only
  refine ⟨?_, ?_, ?_⟩
  · intro hts
    rw [if_pos (by rw [hts]; rfl)]
  · intro hne hlt
    rw [if_neg (by simpa [List.isEmpty_iff] using hne)]
    unfold sampleK
    rw [if_neg (by omega)]
  · intro hne hle
    rw [if_neg (by simpa [List.isEmpty_iff] using hne)]
    unfold sampleK
    rw [if_pos hle]
    refine ⟨drawIndices rand count (List.range ts.length) 0,
      drawIndices_nodup rand count _ 0 (List.nodup_range _),
      drawIndices_length rand count _ 0 (by simpa using hle), ?_, rfl⟩
    intro i hi
    have := drawIndices_subset rand count _ 0 i hi
    simpa using this

/-- C3 witness: on an empty collection, `generate` raises the
no-template-available error for the masculine gender. -/
theorem c3_witness :
    (TemplateCollection.generate lexEmpty rand0 ⟨[]⟩ tpHundur 1).2 =
      GenResult.valueError (noTemplateMsg "kk") :=
  (c3_sampling lexEmpty rand0 ⟨[]⟩ tpHundur 1).1 rfl

theorem substLoop_length (lex : Lexicon) :
    ∀ (ts : List Template) (tp : TermPair) (l : List (String × String))
      (tp' : TermPair), substLoop lex ts tp = some (l, tp') → l.length ≤ ts.length := by
  intro ts
  induction ts with
  | nil =>
    intro tp l tp' h
    cases h
    exact Nat.zero_le _
  | cons t ts ih =>
    intro tp l tp' h
    unfold substLoop at h
    split at h
    · cases h
    · exact Nat.le_succ_of_le (ih _ _ _ h)
    · rw [Option.map_eq_some'] at h
      obtain ⟨⟨l1, tpf⟩, hl, heq⟩ := h
      cases heq
      simpa using ih _ _ _ hl

/-- C6: when a drawn template's substitution is unavailable, `generate`
skips it silently — a successful generation yields at most `count` pairs,
and a concrete collection of two masculine templates with a term realizable
in only one of them yields a single pair for `count = 2` without error and
without retrying. -/
theorem c6_silent_skip :
    (∀ (lex : Lexicon) (rand : Nat → Nat) (tc : TemplateCollection)
       (pair : TermPair) (count : Nat) (l : List (String × String)) (tp' : TermPair),
       (TemplateCollection.generate lex rand tc pair count).2 = GenResult.ok l tp' →
       l.length ≤ count) ∧
    (TemplateCollection.generate lexHundur rand0 tcTwo tpHundur 2).2.yieldCount =
      some 1 ∧
    ((TemplateCollection.getDefault tcTwo tpHundur.gender).1).length = 2 := by
  refine ⟨?_, by decide, by decide⟩
  intro lex rand tc pair count l tp' h
  unfold TemplateCollection.generate at h
  rcases hgd : TemplateCollection.getDefault tc pair.gender with ⟨ts, tc'⟩
  rw [hgd] at h
  simp only at h
  split at h
  · cases h
  · split at h
    · cases h
    · rename_i idxs hidxs
      unfold substResult at h
      split at h
      · cases h
      · rename_i p hp
        cases h
        have hlen := substLoop_length lex _ _ _ _ hp
        have hsz : idxs.length = count ∨ idxs.length ≤ count := by
          unfold sampleK at hidxs
          split at hidxs
          · cases hidxs
            left
            exact drawIndices_length rand count _ 0 (by simpa using (by assumption : count ≤ ts.length))
          · cases hidxs
        rcases hsz with hsz | hsz
        · rw [List.length_map] at hlen
          omega
        · rw [List.length_map] at hlen
          omega

/-- C6 witness: the concrete skipping run yields the single pair and
satisfies the bound. -/
theorem c6_witness :
    (TemplateCollection.generate lexHundur rand0 tcTwo tpHundur 2).2 =
      GenResult.ok [("hundur a", "x dog")]
        { tpHundur with
          cache := populateCache tpHundur "nf" (lexHundur "hundur" "kk" "nf") } ∧
    ([("hundur a", "x dog")] : List (String × String)).length ≤ 2 :=
  ⟨rfl,
   c6_silent_skip.1 lexHundur rand0 tcTwo tpHundur 2 _
     { tpHundur with
       cache := populateCache tpHundur "nf" (lexHundur "hundur" "kk" "nf") } rfl⟩

/-! ## C7: compound lemmas inflect only the head noun -/

theorem cacheGet_mem (c : Cache) (k : Finset String) (v : String × String)
    (h : cacheGet c k = some v) : ∃ e, e ∈ c ∧ e.2 = v := by
  unfold cacheGet at h
  cases hf : c.find? (fun e => decide (e.1 = k)) with
  | none => rw [hf] at h; cases h
  | some e =>
    rw [hf] at h
    refine ⟨e, List.mem_of_find?_eq_some hf, ?_⟩
    simpa using h

theorem mem_cacheSet (c : Cache) (k : Finset String) (v : String × String)
    (e : Finset String × (String × String)) (h : e ∈ cacheSet c k v) :
    e ∈ c ∨ e = (k, v) := by
  unfold cacheSet at h
  split at h
  · obtain ⟨a, ha, hae⟩ := List.mem_map.mp h
    by_cases hk : a.1 = k
    · rw [if_pos hk] at hae
      right; exact hae.symm
    · rw [if_neg hk] at hae
      left; exact hae ▸ ha
  · rcases List.mem_append.mp h with h1 | h1
    · left; exact h1
    · right; simpa using h1

theorem mem_populate (px es ep cs : String) (forms : List BinMeaning) :
    ∀ (c : Cache) (e : Finset String × (String × String)),
      e ∈ forms.foldl (populateStep px es ep cs) c →
      e ∈ c ∨ ∃ m ∈ forms, skipForm m = false ∧
        e = (formVset cs m,
             (px ++ m.ordmynd, if formNumber m = "ft" then ep else es)) := by
  induction forms with
  | nil => intro c e h; left; exact h
  | cons m ms ih =>
    intro c e h
    rw [List.foldl_cons] at h
    rcases ih _ e h with h1 | ⟨m', hm', hsk', he'⟩
    · unfold populateStep at h1
      split at h1
      · left; exact h1
      · rcases mem_cacheSet _ _ _ _ h1 with h2 | h2
        · left; exact h2
        · right
          exact ⟨m, List.mem_cons_self _ _, by simpa using (by assumption : ¬ skipForm m = true), h2⟩
    · right
      exact ⟨m', List.mem_cons_of_mem _ hm', hsk', he'⟩

/-- C7: a lemma whose canonical lexicon form is hyphenated while the caller
lemma is not is split at the last hyphen — the portion before it becomes the
fixed prefix and only the portion after it becomes the working lemma used
for lexicon lookups — and every source-side form a call to `inflect`
returns is that prefix re-prepended verbatim to an inflected form of the
working lemma returned by the lexicon. -/
theorem c7_compound :
    (∀ (lookup_lemma : LemmaLookup) (lemmaArg cat : String) (en : String × String)
       (m0 : BinMeaning),
       (lookup_lemma lemmaArg).filter (fun mm => decide (mm.ordfl = cat)) = [m0] →
       substr "-" m0.stofn = true → substr "-" lemmaArg = false →
       TermPair.init lookup_lemma lemmaArg cat en =
         some ⟨afterLastHyphen m0.stofn, cat, beforeLastHyphen m0.stofn,
               en.1, en.2, []⟩ ∧
       ∀ lex : Lexicon,
         cachePrefixed lex ⟨afterLastHyphen m0.stofn, cat, beforeLastHyphen m0.stofn,
                            en.1, en.2, []⟩) ∧
    (∀ (lex : Lexicon) (tp : TermPair) (variants : Finset String)
       (res : Option (String × String)) (tp' : TermPair) (q : Nat),
       cachePrefixed lex tp →
       TermPair.inflect lex tp variants = some (res, tp', q) →
       cachePrefixed lex tp' ∧ tp'.lemmaStr = tp.lemmaStr ∧ tp'.pfx = tp.pfx ∧
       ∀ isf enf, res = some (isf, enf) →
         ∃ case_ m, m ∈ lex tp.lemmaStr tp.cat case_ ∧ skipForm m = false ∧
           isf = tp.pfx ++ m.ordmynd) := by
  constructor
  · intro lookup_lemma lemmaArg cat en m0 hfil h1 h2
    constructor
    · unfold TermPair.init
      rw [hfil]
      simp [h1, h2]
    · intro lex e he
      cases he
  · intro lex tp variants res tp' q hpre hinf
    unfold TermPair.inflect at hinf
    cases hg : cacheGet tp.cache variants with
    | some f =>
      rw [hg] at hinf
      cases hinf
      refine ⟨hpre, rfl, rfl, ?_⟩
      intro isf enf hres
      have hf : f = (isf, enf) := by injection hres
      subst hf
      obtain ⟨e, he, hev⟩ := cacheGet_mem _ _ _ hg
      obtain ⟨case_, m, hm, hsk, hpfx⟩ := hpre e he
      exact ⟨case_, m, hm, hsk, by rw [← hpfx, hev]⟩
    | none =>
      rw [hg] at hinf
      cases hpop : popSet CASE_LIST (variants ∩ CASE_VARIANTS) with
      | none => rw [hpop] at hinf; cases hinf
      | some case_ =>
        rw [hpop] at hinf
        cases hinf
        have hpre' : cachePrefixed lex
            { tp with cache := populateCache tp case_ (lex tp.lemmaStr tp.cat case_) } := by
          intro e he
          rcases mem_populate _ _ _ _ _ _ _ he with h1 | ⟨m, hm, hsk, he'⟩
          · exact hpre e h1
          · exact ⟨case_, m, hm, hsk, by rw [he']⟩
        refine ⟨hpre', rfl, rfl, ?_⟩
        intro isf enf hres
        obtain ⟨e, he, hev⟩ := cacheGet_mem _ _ _ hres
        obtain ⟨case', m, hm, hsk, hpfx⟩ := hpre' e he
        exact ⟨case', m, hm, hsk, by rw [← hpfx, hev]⟩

/-- C7 witness: `dvergur/kk` resolving to the stem `rauð-dvergur` keeps
`rauð` as the prefix and `dvergur` as the working lemma. -/
theorem c7_witness :
    TermPair.init lookupDvergur "dvergur" "kk" ("dwarf", "dwarfs") =
      some ⟨"dvergur", "kk", "rauð", "dwarf", "dwarfs", []⟩ := by
  have h := (c7_compound.1 lookupDvergur "dvergur" "kk" ("dwarf", "dwarfs")
    ⟨"rauð-dvergur", "kk", "rauð-dvergur", "NFET"⟩ (by decide) (by decide) (by decide)).1
  rw [show afterLastHyphen "rauð-dvergur" = "dvergur" from by decide,
      show beforeLastHyphen "rauð-dvergur" = "rauð" from by decide] at h
  exact h

/-! ## Context lemmas for the tag scanners -/

theorem tryTagAt_cons (c : Char) (rest : List Char) :
    tryTagAt (c :: rest) =
      if c = '{' then
        if rest.takeWhile Char.isDigit = [] then none
        else
          match rest.dropWhile Char.isDigit with
          | ':' :: r3 =>
            if r3.takeWhile (fun ch => ch ≠ '}') = [] then none
            else
              match r3.dropWhile (fun ch => ch ≠ '}') with
              | '}' :: _ =>
                some (rest.takeWhile Char.isDigit, r3.takeWhile (fun ch => ch ≠ '}'))
              | _ => none
          | _ => none
      else none := rfl

theorem findTagChars_cons (c : Char) (rest : List Char) :
    findTagChars (c :: rest) =
      match tryTagAt (c :: rest) with
      | some r => some r
      | none => findTagChars rest := rfl

theorem rtAux_cons_none (c : Char) (rest : List Char) :
    rtAux (c :: rest) none =
      if c = '{' then rtAux rest (some [])
      else c :: rtAux rest none := rfl

theorem rtAux_cons_some (c : Char) (rest acc : List Char) :
    rtAux (c :: rest) (some acc) =
      if c = '}' then
        if acc = [] then '{' :: '}' :: rtAux rest none
        else '[' :: '*' :: ']' :: rtAux rest none
      else rtAux rest (some (c :: acc)) := rfl

theorem tryTagAt_ne_lbrace (a : Char) (l : List Char) (h : a ≠ '{') :
    tryTagAt (a :: l) = none := by
  rw [tryTagAt_cons, if_neg h]

theorem findTagChars_cons_ne (a : Char) (l : List Char) (h : a ≠ '{') :
    findTagChars (a :: l) = findTagChars l := by
  rw [findTagChars_cons, tryTagAt_ne_lbrace a l h]

theorem tryTagAt_tag (T B : List Char) (hT : ∀ c ∈ T, c ≠ '}') (hTne : T ≠ []) :
    tryTagAt ('{' :: '0' :: ':' :: (T ++ '}' :: B)) = some (['0'], T) := by
  rw [tryTagAt_cons, if_pos rfl]
  have hds : ('0' :: ':' :: (T ++ '}' :: B)).takeWhile Char.isDigit = ['0'] := by
    rw [List.takeWhile_cons, if_pos (by decide), List.takeWhile_cons,
        if_neg (by decide)]
  have hdrop : ('0' :: ':' :: (T ++ '}' :: B)).dropWhile Char.isDigit =
      ':' :: (T ++ '}' :: B) := by
    rw [List.dropWhile_cons, if_pos (by decide), List.dropWhile_cons,
        if_neg (by decide)]
  rw [hds, if_neg (by decide), hdrop]
  show (if (T ++ '}' :: B).takeWhile (fun ch => ch ≠ '}') = [] then none
        else
          match (T ++ '}' :: B).dropWhile (fun ch => ch ≠ '}') with
          | '}' :: _ =>
            some ((['0'] : List Char), (T ++ '}' :: B).takeWhile (fun ch => ch ≠ '}'))
          | _ => none) = some (['0'], T)
  have hTall : ∀ c ∈ T, (fun ch => decide (ch ≠ '}')) c = true := by
    intro c hc
    simpa using hT c hc
  have hbody : (T ++ '}' :: B).takeWhile (fun ch => ch ≠ '}') = T := by
    rw [List.takeWhile_append_of_pos hTall, List.takeWhile_cons, if_neg (by decide),
        List.append_nil]
  have hrest : (T ++ '}' :: B).dropWhile (fun ch => ch ≠ '}') = '}' :: B := by
    rw [List.dropWhile_append_of_pos hTall, List.dropWhile_cons, if_neg (by decide)]
  rw [hbody, hrest, if_neg hTne]
  rfl

theorem findTagChars_decomp (A T B : List Char) (hA : braceFree A)
    (hT : ∀ c ∈ T, c ≠ '}') (hTne : T ≠ []) :
    findTagChars (A ++ '{' :: '0' :: ':' :: (T ++ '}' :: B)) = some (['0'], T) := by
  induction A with
  | nil =>
    rw [List.nil_append, findTagChars_cons, tryTagAt_tag T B hT hTne]
  | cons a A' ih =>
    rw [List.cons_append, findTagChars_cons_ne a _ (hA a (List.mem_cons_self _ _)).1]
    exact ih (fun c hc => hA c (List.mem_cons_of_mem _ hc))

theorem rtAux_bf (l : List Char) (h : braceFree l) : rtAux l none = l := by
  induction l with
  | nil => rfl
  | cons c rest ih =>
    rw [rtAux_cons_none, if_neg (h c (List.mem_cons_self _ _)).1,
        ih (fun x hx => h x (List.mem_cons_of_mem _ hx))]

theorem rtAux_inside (B : List Char) :
    ∀ (body acc : List Char), (∀ c ∈ body, c ≠ '}') → (acc ≠ [] ∨ body ≠ []) →
      rtAux (body ++ '}' :: B) (some acc) = '[' :: '*' :: ']' :: rtAux B none := by
  intro body
  induction body with
  | nil =>
    intro acc _ hne
    rw [List.nil_append, rtAux_cons_some, if_pos rfl,
        if_neg (by rcases hne with h | h; exact h; exact absurd rfl h)]
  | cons b bs ih =>
    intro acc hb hne
    rw [List.cons_append, rtAux_cons_some, if_neg (hb b (List.mem_cons_self _ _))]
    exact ih (b :: acc) (fun c hc => hb c (List.mem_cons_of_mem _ hc))
      (Or.inl (List.cons_ne_nil _ _))

theorem rtAux_decomp (A T B : List Char) (hA : braceFree A) (hB : braceFree B)
    (hT : ∀ c ∈ T, c ≠ '}') (hTne : T ≠ []) :
    rtAux (A ++ '{' :: (T ++ '}' :: B)) none = A ++ '[' :: '*' :: ']' :: B := by
  induction A with
  | nil =>
    rw [List.nil_append, List.nil_append, rtAux_cons_none, if_pos rfl,
        rtAux_inside B T [] hT (Or.inr hTne), rtAux_bf B hB]
  | cons a A' ih =>
    rw [List.cons_append, List.cons_append, rtAux_cons_none,
        if_neg (hA a (List.mem_cons_self _ _)).1,
        ih (fun c hc => hA c (List.mem_cons_of_mem _ hc))]

/-! ## Marker occurrence counting -/

theorem marker_prefix_iff (A B : List Char) (hA : ¬ ['[', '*', ']'] <:+: A)
    (hB : ¬ ['[', '*', ']'] <:+: B) (i : Nat) :
    ['[', '*', ']'] <+: ((A ++ '[' :: '*' :: ']' :: B).drop i) ↔ i = A.length := by
  constructor
  · intro h
    rcases Nat.lt_trichotomy i A.length with hlt | heq | hgt
    · exfalso
      rw [List.drop_append_eq_append_drop,
          show i - A.length = 0 from by omega, List.drop_zero] at h
      obtain ⟨t, ht⟩ := h
      cases hd : A.drop i with
      | nil =>
        have := List.drop_eq_nil_iff.mp hd
        omega
      | cons a d' =>
        rw [hd, List.cons_append] at ht
        injection ht with h1 ht
        cases d' with
        | nil =>
          injection ht with h2 _
          exact absurd h2 (by decide)
        | cons b d'' =>
          rw [List.cons_append] at ht
          injection ht with h2 ht
          cases d'' with
          | nil =>
            injection ht with h3 _
            exact absurd h3 (by decide)
          | cons c d3 =>
            injection ht with h3 _
            apply hA
            refine ⟨A.take i, d3, ?_⟩
            have htd : A.take i ++ A.drop i = A := List.take_append_drop i A
            rw [hd, ← h1, ← h2, ← h3] at htd
            simpa using htd
    · exact heq
    · exfalso
      rw [List.drop_append_eq_append_drop,
          List.drop_eq_nil_of_le (by omega : A.length ≤ i), List.nil_append] at h
      obtain ⟨k, hk⟩ : ∃ k, i - A.length = k + 1 := ⟨i - A.length - 1, by omega⟩
      rw [hk, List.drop_succ_cons] at h
      cases k with
      | zero =>
        obtain ⟨t, ht⟩ := h
        injection ht with h1 _
        exact absurd h1 (by decide)
      | succ k' =>
        rw [List.drop_succ_cons] at h
        cases k' with
        | zero =>
          obtain ⟨t, ht⟩ := h
          injection ht with h1 _
          exact absurd h1 (by decide)
        | succ k'' =>
          rw [List.drop_succ_cons] at h
          obtain ⟨t, ht⟩ := h
          apply hB
          refine ⟨B.take k'', t, ?_⟩
          have htd : B.take k'' ++ B.drop k'' = B := List.take_append_drop k'' B
          rw [← ht] at htd
          simpa using htd
  · intro h
    subst h
    rw [List.drop_left]
    exact ⟨B, rfl⟩

theorem markerCount_split (A B : List Char) (hA : ¬ ['[', '*', ']'] <:+: A)
    (hB : ¬ ['[', '*', ']'] <:+: B) :
    markerCount (String.mk (A ++ '[' :: '*' :: ']' :: B)) = 1 := by
  unfold markerCount
  have hdata : (String.mk (A ++ '[' :: '*' :: ']' :: B)).data =
      A ++ '[' :: '*' :: ']' :: B := rfl
  rw [hdata]
  have hfil : (Finset.range (A ++ '[' :: '*' :: ']' :: B).length).filter
      (fun i => PLACEHOLDER.data.isPrefixOf ((A ++ '[' :: '*' :: ']' :: B).drop i) = true) =
      {A.length} := by
    apply Finset.ext
    intro i
    rw [Finset.mem_filter, Finset.mem_range, Finset.mem_singleton]
    constructor
    · intro ⟨_, hp⟩
      have := List.isPrefixOf_iff_prefix.mp hp
      exact (marker_prefix_iff A B hA hB i).mp this
    · intro h
      subst h
      refine ⟨?_, ?_⟩
      · rw [List.length_append, List.length_cons]
        omega
      · exact List.isPrefixOf_iff_prefix.mpr ((marker_prefix_iff A B hA hB _).mpr rfl)
  rw [hfil]
  exact Finset.card_singleton _

/-! ## C8: the single-placeholder invariant of load -/

theorem findTag_decomp (A T B : List Char) (hA : braceFree A)
    (hT : ∀ c ∈ T, c ≠ '}') (hTne : T ≠ []) :
    findTag (String.mk (A ++ '{' :: '0' :: ':' :: (T ++ '}' :: B))) =
      some ("0", String.mk T) := by
  unfold findTag
  rw [show (String.mk (A ++ '{' :: '0' :: ':' :: (T ++ '}' :: B))).data =
      A ++ '{' :: '0' :: ':' :: (T ++ '}' :: B) from rfl,
    findTagChars_decomp A T B hA hT hTne]
  rfl

theorem replaceTags_decomp (A T B : List Char) (hA : braceFree A) (hB : braceFree B)
    (hT : ∀ c ∈ T, c ≠ '}') :
    replaceTags (String.mk (A ++ '{' :: '0' :: ':' :: (T ++ '}' :: B))) =
      String.mk (A ++ '[' :: '*' :: ']' :: B) := by
  unfold replaceTags
  congr 1
  show rtAux (A ++ '{' :: (('0' :: ':' :: T) ++ '}' :: B)) none = _
  apply rtAux_decomp A ('0' :: ':' :: T) B hA hB
  · intro c hc
    rcases List.mem_cons.mp hc with h | h
    · subst h; decide
    · rcases List.mem_cons.mp h with h' | h'
      · subst h'; decide
      · exact hT c h'
  · exact List.cons_ne_nil _ _

/-- C8 (counterexample): the claim says every pair of template strings
accepted by `load` yields exactly one neutral marker per side; but a side
with no recognized tag is accepted and stored literally with zero markers,
and a side with a tag plus a second braced group gets both groups replaced,
yielding two markers. -/
theorem c8_counterexample :
    (Template.load "abc" "def").map
        (fun t => (markerCount t.is_template, markerCount t.en_template)) =
      some (0, 0) ∧
    (Template.load "sja \x7b0:kk_nf_et\x7d og \x7bx\x7d her" "a \x7b0:sg\x7d b").map
        (fun t => markerCount t.is_template) =
      some 2 := by
  constructor
  · rfl
  · rfl

/-- C8 (amended): when each side of the input is a single well-formed
`\x7b0:TAG\x7d` group inside brace-free, marker-free context and `load`
accepts the pair, the stored source and target texts each contain exactly
one occurrence of the neutral placeholder marker. -/
theorem c8_single_marker (A B T A' B' T' : List Char) (t : Template)
    (hA : braceFree A) (hB : braceFree B) (hT : ∀ c ∈ T, c ≠ '}') (hTne : T ≠ [])
    (hA' : braceFree A') (hB' : braceFree B') (hT' : ∀ c ∈ T', c ≠ '}')
    (hTne' : T' ≠ [])
    (hmA : ¬ ['[', '*', ']'] <:+: A) (hmB : ¬ ['[', '*', ']'] <:+: B)
    (hmA' : ¬ ['[', '*', ']'] <:+: A') (hmB' : ¬ ['[', '*', ']'] <:+: B')
    (hload : Template.load (String.mk (A ++ '{' :: '0' :: ':' :: (T ++ '}' :: B)))
        (String.mk (A' ++ '{' :: '0' :: ':' :: (T' ++ '}' :: B'))) = some t) :
    markerCount t.is_template = 1 ∧ markerCount t.en_template = 1 := by
  unfold Template.load at hload
  unfold loadIsSide at hload
  rw [findTag_decomp A T B hA hT hTne] at hload
  dsimp only at hload
  rw [if_pos rfl] at hload
  split at hload
  · unfold loadEnSide at hload
    rw [findTag_decomp A' T' B' hA' hT' hTne'] at hload
    dsimp only at hload
    rw [Option.some_bind, if_pos rfl] at hload
    have ht := Option.some.inj hload
    subst ht
    constructor
    · show markerCount (replaceTags (String.mk (A ++ '{' :: '0' :: ':' :: (T ++ '}' :: B)))) = 1
      rw [replaceTags_decomp A T B hA hB hT]
      exact markerCount_split A B hmA hmB
    · show markerCount (replaceTags (String.mk (A' ++ '{' :: '0' :: ':' :: (T' ++ '}' :: B')))) = 1
      rw [replaceTags_decomp A' T' B' hA' hB' hT']
      exact markerCount_split A' B' hmA' hmB'
  · cases hload

/-- C8 witness: a concrete well-formed template pair loads with exactly one
marker per side. -/
theorem c8_witness :
    markerCount ((Template.load "x \x7b0:kk_nf_et\x7d y" "a \x7b0:sg\x7d b").getD
        Template.defaultT).is_template = 1 ∧
    markerCount ((Template.load "x \x7b0:kk_nf_et\x7d y" "a \x7b0:sg\x7d b").getD
        Template.defaultT).en_template = 1 :=
  c8_single_marker ['x', ' '] [' ', 'y'] "kk_nf_et".data ['a', ' '] [' ', 'b']
    "sg".data
    ((Template.load "x \x7b0:kk_nf_et\x7d y" "a \x7b0:sg\x7d b").getD
      Template.defaultT)
    (by unfold braceFree; decide) (by unfold braceFree; decide) (by decide)
    (by decide) (by unfold braceFree; decide) (by unfold braceFree; decide)
    (by decide) (by decide) (by decide) (by decide) (by decide) (by decide) rfl

/-! ## C1: the create/load round trip -/

set_option maxHeartbeats 1000000 in
theorem tagdec_is :
    ∀ g ∈ GENDER_LIST, ∀ c ∈ CASE_LIST, ∀ n ∈ NUMBER_LIST,
      ∀ gr caps cap : Bool,
      singletonOf GENDER_LIST
          ((pySplit '_' (mkIsTag g c n gr caps cap)).toFinset ∩ GENDER_VARIANTS) =
        some g ∧
      singletonOf CASE_LIST
          ((pySplit '_' (mkIsTag g c n gr caps cap)).toFinset ∩ CASE_VARIANTS) =
        some c ∧
      singletonOf NUMBER_LIST
          ((pySplit '_' (mkIsTag g c n gr caps cap)).toFinset ∩ NUMBER_VARIANTS) =
        some n ∧
      (pySplit '_' (mkIsTag g c n gr caps cap)).toFinset ∩ INTERESTING_VARIANTS =
        insert c (insert n (if gr then {"gr"} else (∅ : Finset String))) ∧
      decide ("caps" ∈ (pySplit '_' (mkIsTag g c n gr caps cap)).toFinset) = caps ∧
      decide ("cap" ∈ (pySplit '_' (mkIsTag g c n gr caps cap)).toFinset) =
        (!caps && cap) ∧
      (mkIsTag g c n gr caps cap).data ≠ [] ∧
      ∀ ch ∈ (mkIsTag g c n gr caps cap).data, ch ≠ '{' ∧ ch ≠ '}' := by decide

theorem tagdec_en :
    ∀ nh ∈ ["et", "ft"], ∀ caps cap : Bool,
      decide ("caps" ∈ (pySplit '_' (mkEnTag nh caps cap)).toFinset) = caps ∧
      decide ("cap" ∈ (pySplit '_' (mkEnTag nh caps cap)).toFinset) =
        (!caps && cap) ∧
      (mkEnTag nh caps cap).data ≠ [] ∧
      ∀ ch ∈ (mkEnTag nh caps cap).data, ch ≠ '{' ∧ ch ≠ '}' := by decide

theorem mem_gender_list (a : String) (h : a ∈ GENDER_VARIANTS) : a ∈ GENDER_LIST := by
  fin_cases h <;> decide

theorem mem_case_list (a : String) (h : a ∈ CASE_VARIANTS) : a ∈ CASE_LIST := by
  fin_cases h <;> decide

theorem mem_number_list (a : String) (h : a ∈ NUMBER_VARIANTS) : a ∈ NUMBER_LIST := by
  fin_cases h <;> decide

theorem detok_cons (t : String) (ts : List String) (h : ts ≠ []) :
    detok (t :: ts) = t ++ " " ++ detok ts := by
  cases ts with
  | nil => exact absurd rfl h
  | cons a l => rfl

theorem braceFree_detok (ts : List String) (h : ∀ s ∈ ts, braceFree s.data) :
    braceFree (detok ts).data := by
  induction ts with
  | nil => intro c hc; cases hc
  | cons t ts ih =>
    cases ts with
    | nil => exact h t (List.mem_cons_self _ _)
    | cons a l =>
      rw [detok_cons t (a :: l) (List.cons_ne_nil _ _)]
      intro c hc
      rw [String.data_append, String.data_append] at hc
      rcases List.mem_append.mp hc with h1 | h1
      · rcases List.mem_append.mp h1 with h2 | h2
        · exact h t (List.mem_cons_self _ _) c h2
        · have : c = ' ' := by simpa using h2
          subst this
          exact ⟨by decide, by decide⟩
      · exact ih (fun s hs => h s (List.mem_cons_of_mem _ hs)) c h1

theorem detok_set_decomp (tokens : List String) :
    ∀ index : Nat, index < tokens.length →
    ∃ A B : List Char,
      (∀ y : String, (detok (tokens.set index y)).data = A ++ y.data ++ B) ∧
      ((∀ s ∈ tokens, braceFree s.data) → braceFree A ∧ braceFree B) := by
  induction tokens with
  | nil => intro index h; simp at h
  | cons t ts ih =>
    intro index h
    cases index with
    | zero =>
      cases ts with
      | nil =>
        refine ⟨[], [], ?_, ?_⟩
        · intro y
          show (detok [y]).data = [] ++ y.data ++ []
          simp [detok]
        · intro _
          exact ⟨fun c hc => absurd hc (List.not_mem_nil c),
                 fun c hc => absurd hc (List.not_mem_nil c)⟩
      | cons a l =>
        refine ⟨[], ' ' :: (detok (a :: l)).data, ?_, ?_⟩
        · intro y
          show (detok (y :: a :: l)).data = [] ++ y.data ++ (' ' :: (detok (a :: l)).data)
          rw [detok_cons y (a :: l) (List.cons_ne_nil _ _), String.data_append,
              String.data_append]
          simp
        · intro hbf
          refine ⟨fun c hc => absurd hc (List.not_mem_nil c), ?_⟩
          intro c hc
          rcases List.mem_cons.mp hc with h1 | h1
          · subst h1; exact ⟨by decide, by decide⟩
          · exact braceFree_detok (a :: l)
              (fun s hs => hbf s (List.mem_cons_of_mem _ hs)) c h1
    | succ i =>
      have hi : i < ts.length := by simpa using h
      obtain ⟨A', B', hAB, hbf'⟩ := ih i hi
      cases ts with
      | nil => simp at hi
      | cons a l =>
        refine ⟨t.data ++ ' ' :: A', B', ?_, ?_⟩
        · intro y
          show (detok (t :: (a :: l).set i y)).data = _
          rw [detok_cons t _ (by
            intro hnil
            have := congrArg List.length hnil
            simp at this)]
          rw [String.data_append, String.data_append, hAB y]
          simp
        · intro hbf
          obtain ⟨hA', hB'⟩ := hbf' (fun s hs => hbf s (List.mem_cons_of_mem _ hs))
          refine ⟨?_, hB'⟩
          intro c hc
          rcases List.mem_append.mp hc with h1 | h1
          · exact hbf t (List.mem_cons_self _ _) c h1
          · rcases List.mem_cons.mp h1 with h2 | h2
            · subst h2; exact ⟨by decide, by decide⟩
            · exact hA' c h2

theorem wordPositions_mem (w s : String) (i : Nat) (h : i ∈ wordPositions w s) :
    wordMatchAt w.data s.data i = true ∧ i < s.data.length := by
  unfold wordPositions at h
  have := List.mem_filter.mp h
  exact ⟨this.2, by simpa using this.1⟩

theorem subFirstWord_data (w repl s : String) (i : Nat) (tl : List Nat)
    (hp : wordPositions w s = i :: tl) :
    (subFirstWord w repl s).data =
      s.data.take i ++ repl.data ++ s.data.drop (i + w.data.length) := by
  unfold subFirstWord
  rw [hp]

theorem splice_ne (s repl : String) (A' B' : List Char)
    (hrepl : '{' ∈ repl.data) (hbf : braceFree s.data) :
    String.mk (A' ++ repl.data ++ B') ≠ s := by
  intro heq
  have hmem : '{' ∈ (String.mk (A' ++ repl.data ++ B')).data := by
    show '{' ∈ A' ++ repl.data ++ B'
    exact List.mem_append.mpr (Or.inl (List.mem_append.mpr (Or.inr hrepl)))
  rw [heq] at hmem
  exact (hbf '{' hmem).1 rfl

theorem interesting_inter (tv : Finset String) (c n : String)
    (hc : tv ∩ CASE_VARIANTS = {c}) (hn : tv ∩ NUMBER_VARIANTS = {n}) :
    tv ∩ INTERESTING_VARIANTS =
      insert c (insert n (if decide ("gr" ∈ tv) then {"gr"} else (∅ : Finset String))) := by
  have hI : INTERESTING_VARIANTS = CASE_VARIANTS ∪ NUMBER_VARIANTS ∪ {"gr"} := by decide
  rw [hI, Finset.inter_union_distrib_left, Finset.inter_union_distrib_left, hc, hn]
  by_cases hgr : "gr" ∈ tv
  · rw [if_pos (by simpa using hgr)]
    rw [show tv ∩ {"gr"} = {"gr"} from by
      apply Finset.ext
      intro x
      simp only [Finset.mem_inter, Finset.mem_singleton]
      constructor
      · intro hx; exact hx.2
      · intro hx; subst hx; exact ⟨hgr, rfl⟩]
    rw [Finset.insert_eq, Finset.insert_eq, Finset.union_assoc]
  · rw [if_neg (by simpa using hgr)]
    rw [show tv ∩ {"gr"} = (∅ : Finset String) from by
      apply Finset.ext
      intro x
      simp only [Finset.mem_inter, Finset.mem_singleton, Finset.not_mem_empty,
        iff_false, not_and]
      intro hx hx'
      exact hgr (hx' ▸ hx)]
    rw [Finset.insert_eq, Finset.insert_eq, Finset.union_assoc, Finset.union_empty]

/-- C1 (amended): loading the serialized form of a Template built by
`create` reproduces the variant signature, gender, case and number, both
all-caps flags, and the first-cap flags whenever the corresponding side is
not all-caps (an all-caps side reloads with a false first-cap flag); the
reloaded texts are the created texts with the `\x7b0:TAG\x7d` tag replaced
by the neutral marker. -/
theorem c1_roundtrip (tokens : List String) (index : Nat) (tv : Finset String)
    (en_sent en_word w : String) (g c n : String)
    (hg : tv ∩ GENDER_VARIANTS = {g}) (hc : tv ∩ CASE_VARIANTS = {c})
    (hn : tv ∩ NUMBER_VARIANTS = {n})
    (hidx : index < tokens.length)
    (htoks : ∀ s ∈ tokens, braceFree s.data)
    (htxt : tokens.getD index "" ≠ "")
    (hword : en_word ≠ "")
    (hen : braceFree en_sent.data)
    (hpos : wordPositions w en_sent ≠ []) :
    ∃ t t', Template.create tokens index tv en_sent en_word w = some t ∧
      Template.load t.is_template t.en_template = some t' ∧
      t'.variants = t.variants ∧ t'.gender = t.gender ∧ t'.caseTag = t.caseTag ∧
      t'.number = t.number ∧
      t'.is_all_caps = t.is_all_caps ∧ t'.en_all_caps = t.en_all_caps ∧
      (t.is_all_caps = false → t'.is_first_cap = t.is_first_cap) ∧
      (t.is_all_caps = true → t'.is_first_cap = false) ∧
      (t.en_all_caps = false → t'.en_first_cap = t.en_first_cap) ∧
      (t.en_all_caps = true → t'.en_first_cap = false) ∧
      t'.is_template = detok (tokens.set index PLACEHOLDER) ∧
      t'.en_template = subFirstWord w PLACEHOLDER en_sent := by
  -- vocabulary memberships of the popped variants
  have hgm : g ∈ GENDER_VARIANTS := by
    have : g ∈ tv ∩ GENDER_VARIANTS := hg ▸ Finset.mem_singleton_self g
    exact (Finset.mem_inter.mp this).2
  have hcm : c ∈ CASE_VARIANTS := by
    have : c ∈ tv ∩ CASE_VARIANTS := hc ▸ Finset.mem_singleton_self c
    exact (Finset.mem_inter.mp this).2
  have hnm : n ∈ NUMBER_VARIANTS := by
    have : n ∈ tv ∩ NUMBER_VARIANTS := hn ▸ Finset.mem_singleton_self n
    exact (Finset.mem_inter.mp this).2
  have hgl := mem_gender_list g hgm
  have hcl := mem_case_list c hcm
  have hnl := mem_number_list n hnm
  have hpopg : popSet GENDER_LIST (tv ∩ GENDER_VARIANTS) = some g := by
    rw [hg]; exact popSet_singleton _ _ hgl
  have hpopc : popSet CASE_LIST (tv ∩ CASE_VARIANTS) = some c := by
    rw [hc]; exact popSet_singleton _ _ hcl
  have hpopn : popSet NUMBER_LIST (tv ∩ NUMBER_VARIANTS) = some n := by
    rw [hn]; exact popSet_singleton _ _ hnl
  -- the indexed token and its first character
  have hget : tokens.get? index = some (tokens.getD index "") := by
    rw [List.getD_eq_getElem _ _ hidx, List.get?_eq_getElem?]
    exact List.getElem?_eq_getElem hidx
  obtain ⟨c0, rest0, hc0⟩ : ∃ c0 rest0, (tokens.getD index "").data = c0 :: rest0 := by
    cases hd : (tokens.getD index "").data with
    | nil =>
      exfalso
      apply htxt
      have : tokens.getD index "" = String.mk (tokens.getD index "").data := rfl
      rw [hd] at this
      exact this
    | cons c0 rest0 => exact ⟨c0, rest0, rfl⟩
  have hhead : (tokens.getD index "").data.head? = some c0 := by rw [hc0]; rfl
  obtain ⟨e0, reste, he0⟩ : ∃ e0 reste, en_word.data = e0 :: reste := by
    cases hd : en_word.data with
    | nil =>
      exfalso
      apply hword
      have : en_word = String.mk en_word.data := rfl
      rw [hd] at this
      exact this
    | cons e0 reste => exact ⟨e0, reste, rfl⟩
  have hheadE : en_word.data.head? = some e0 := by rw [he0]; rfl
  -- the first match position on the English side
  obtain ⟨i, tl, hpos'⟩ : ∃ i tl, wordPositions w en_sent = i :: tl := by
    cases hp : wordPositions w en_sent with
    | nil => exact absurd hp hpos
    | cons i tl => exact ⟨i, tl, rfl⟩
  -- tag decodings
  have tdis := tagdec_is g hgl c hcl n hnl (decide ("gr" ∈ tv))
    (pyIsUpper (tokens.getD index "")) c0.isUpper
  have tden := tagdec_en n hnl (pyIsUpper en_word) e0.isUpper
  obtain ⟨td1, td2, td3, td4, td5, td6, td7, td8⟩ := tdis
  obtain ⟨te1, te2, te3, te4⟩ := tden
  -- the created record
  have hsub : subFirstWord w
      ("\x7b0:" ++ mkEnTag n (pyIsUpper en_word) e0.isUpper ++ "\x7d") en_sent =
      String.mk (en_sent.data.take i ++
        ("\x7b0:" ++ mkEnTag n (pyIsUpper en_word) e0.isUpper ++ "\x7d").data ++
        en_sent.data.drop (i + w.data.length)) := by
    unfold subFirstWord
    rw [hpos']
  have hne : subFirstWord w
      ("\x7b0:" ++ mkEnTag n (pyIsUpper en_word) e0.isUpper ++ "\x7d") en_sent ≠
      en_sent := by
    rw [hsub]
    apply splice_ne
    · rw [String.data_append, String.data_append]
      exact List.mem_append.mpr (Or.inl (List.mem_append.mpr (Or.inl (by decide))))
    · exact hen
  have hcreate : Template.create tokens index tv en_sent en_word w = some
      { variants := tv ∩ INTERESTING_VARIANTS, gender := g, caseTag := c, number := n,
        is_template := detok (tokens.set index
          ("\x7b0:" ++ mkIsTag g c n (decide ("gr" ∈ tv))
            (pyIsUpper (tokens.getD index "")) c0.isUpper ++ "\x7d")),
        en_template := subFirstWord w
          ("\x7b0:" ++ mkEnTag n (pyIsUpper en_word) e0.isUpper ++ "\x7d") en_sent,
        is_all_caps := pyIsUpper (tokens.getD index ""),
        is_first_cap := c0.isUpper,
        en_all_caps := pyIsUpper en_word, en_first_cap := e0.isUpper } := by
    unfold Template.create
    rw [hpopg, hpopc, hpopn, hget]
    dsimp only
    rw [hhead, hheadE]
    dsimp only
    rw [if_neg hne]
  -- decompose the Icelandic side
  obtain ⟨A, B, hAB, hbfAB'⟩ := detok_set_decomp tokens index hidx
  obtain ⟨hbfA, hbfB⟩ := hbfAB' htoks
  have hisdata : (detok (tokens.set index
      ("\x7b0:" ++ mkIsTag g c n (decide ("gr" ∈ tv))
        (pyIsUpper (tokens.getD index "")) c0.isUpper ++ "\x7d"))).data =
      A ++ '{' :: '0' :: ':' ::
        ((mkIsTag g c n (decide ("gr" ∈ tv))
          (pyIsUpper (tokens.getD index "")) c0.isUpper).data ++ '}' :: B) := by
    rw [hAB, String.data_append, String.data_append]
    simp only [List.append_assoc, List.cons_append, List.nil_append]
  have hfindIs : findTag (detok (tokens.set index
      ("\x7b0:" ++ mkIsTag g c n (decide ("gr" ∈ tv))
        (pyIsUpper (tokens.getD index "")) c0.isUpper ++ "\x7d"))) =
      some ("0", mkIsTag g c n (decide ("gr" ∈ tv))
        (pyIsUpper (tokens.getD index "")) c0.isUpper) := by
    unfold findTag
    rw [hisdata, findTagChars_decomp A _ B hbfA (fun ch hch => (td8 ch hch).2) (by
      intro hnil
      exact td7 hnil)]
    rfl
  have hreplIs : replaceTags (detok (tokens.set index
      ("\x7b0:" ++ mkIsTag g c n (decide ("gr" ∈ tv))
        (pyIsUpper (tokens.getD index "")) c0.isUpper ++ "\x7d"))) =
      detok (tokens.set index PLACEHOLDER) := by
    unfold replaceTags
    rw [hisdata]
    have hrt : rtAux (A ++ '{' ::
        (('0' :: ':' :: (mkIsTag g c n (decide ("gr" ∈ tv))
          (pyIsUpper (tokens.getD index "")) c0.isUpper).data) ++ '}' :: B)) none =
        A ++ '[' :: '*' :: ']' :: B := by
      apply rtAux_decomp A _ B hbfA hbfB
      · intro ch hch
        rcases List.mem_cons.mp hch with h1 | h1
        · subst h1; decide
        · rcases List.mem_cons.mp h1 with h2 | h2
          · subst h2; decide
          · exact (td8 ch h2).2
      · exact List.cons_ne_nil _ _
    rw [show (A ++ '{' :: '0' :: ':' ::
        ((mkIsTag g c n (decide ("gr" ∈ tv))
          (pyIsUpper (tokens.getD index "")) c0.isUpper).data ++ '}' :: B)) =
        (A ++ '{' ::
        (('0' :: ':' :: (mkIsTag g c n (decide ("gr" ∈ tv))
          (pyIsUpper (tokens.getD index "")) c0.isUpper).data) ++ '}' :: B)) from rfl,
      hrt]
    have : detok (tokens.set index PLACEHOLDER) =
        String.mk (A ++ PLACEHOLDER.data ++ B) := by
      have h1 : detok (tokens.set index PLACEHOLDER) =
          String.mk (detok (tokens.set index PLACEHOLDER)).data := rfl
      rw [h1, hAB]
    rw [this]
    congr 1
    rw [show PLACEHOLDER.data = ['[', '*', ']'] from rfl]
    simp
  -- decompose the English side
  have hbfTake : braceFree (en_sent.data.take i) :=
    fun ch hch => hen ch (List.mem_of_mem_take hch)
  have hbfDrop : braceFree (en_sent.data.drop (i + w.data.length)) :=
    fun ch hch => hen ch (List.mem_of_mem_drop hch)
  have hendata : (subFirstWord w
      ("\x7b0:" ++ mkEnTag n (pyIsUpper en_word) e0.isUpper ++ "\x7d") en_sent).data =
      en_sent.data.take i ++ '{' :: '0' :: ':' ::
        ((mkEnTag n (pyIsUpper en_word) e0.isUpper).data ++
          '}' :: en_sent.data.drop (i + w.data.length)) := by
    rw [hsub]
    show (en_sent.data.take i ++
        ("\x7b0:" ++ mkEnTag n (pyIsUpper en_word) e0.isUpper ++ "\x7d").data ++
        en_sent.data.drop (i + w.data.length)) = _
    rw [String.data_append, String.data_append]
    simp only [List.append_assoc, List.cons_append, List.nil_append]
  have hfindEn : findTag (subFirstWord w
      ("\x7b0:" ++ mkEnTag n (pyIsUpper en_word) e0.isUpper ++ "\x7d") en_sent) =
      some ("0", mkEnTag n (pyIsUpper en_word) e0.isUpper) := by
    unfold findTag
    rw [hendata, findTagChars_decomp _ _ _ hbfTake
      (fun ch hch => (te4 ch hch).2) (fun hnil => te3 hnil)]
    rfl
  have hreplEn : replaceTags (subFirstWord w
      ("\x7b0:" ++ mkEnTag n (pyIsUpper en_word) e0.isUpper ++ "\x7d") en_sent) =
      subFirstWord w PLACEHOLDER en_sent := by
    unfold replaceTags
    rw [hendata]
    have hrt : rtAux (en_sent.data.take i ++ '{' ::
        (('0' :: ':' :: (mkEnTag n (pyIsUpper en_word) e0.isUpper).data) ++
          '}' :: en_sent.data.drop (i + w.data.length))) none =
        en_sent.data.take i ++ '[' :: '*' :: ']' ::
          en_sent.data.drop (i + w.data.length) := by
      apply rtAux_decomp _ _ _ hbfTake hbfDrop
      · intro ch hch
        rcases List.mem_cons.mp hch with h1 | h1
        · subst h1; decide
        · rcases List.mem_cons.mp h1 with h2 | h2
          · subst h2; decide
          · exact (te4 ch h2).2
      · exact List.cons_ne_nil _ _
    rw [show (en_sent.data.take i ++ '{' :: '0' :: ':' ::
        ((mkEnTag n (pyIsUpper en_word) e0.isUpper).data ++
          '}' :: en_sent.data.drop (i + w.data.length))) =
        (en_sent.data.take i ++ '{' ::
        (('0' :: ':' :: (mkEnTag n (pyIsUpper en_word) e0.isUpper).data) ++
          '}' :: en_sent.data.drop (i + w.data.length))) from rfl,
      hrt]
    have hsub2 : subFirstWord w PLACEHOLDER en_sent =
        String.mk (en_sent.data.take i ++ PLACEHOLDER.data ++
          en_sent.data.drop (i + w.data.length)) := by
      unfold subFirstWord
      rw [hpos']
    rw [hsub2]
    congr 1
    rw [show PLACEHOLDER.data = ['[', '*', ']'] from rfl]
    simp
  -- assemble the load of the two serialized sides
  refine ⟨_,
    { variants := (pySplit '_' (mkIsTag g c n (decide ("gr" ∈ tv))
          (pyIsUpper (tokens.getD index "")) c0.isUpper)).toFinset ∩
          INTERESTING_VARIANTS,
      gender := g, caseTag := c, number := n,
      is_template := replaceTags (detok (tokens.set index
        ("\x7b0:" ++ mkIsTag g c n (decide ("gr" ∈ tv))
          (pyIsUpper (tokens.getD index "")) c0.isUpper ++ "\x7d"))),
      en_template := replaceTags (subFirstWord w
        ("\x7b0:" ++ mkEnTag n (pyIsUpper en_word) e0.isUpper ++ "\x7d") en_sent),
      is_all_caps := decide ("caps" ∈ (pySplit '_' (mkIsTag g c n (decide ("gr" ∈ tv))
        (pyIsUpper (tokens.getD index "")) c0.isUpper)).toFinset),
      is_first_cap := decide ("cap" ∈ (pySplit '_' (mkIsTag g c n (decide ("gr" ∈ tv))
        (pyIsUpper (tokens.getD index "")) c0.isUpper)).toFinset),
      en_all_caps := decide ("caps" ∈ (pySplit '_' (mkEnTag n (pyIsUpper en_word)
        e0.isUpper)).toFinset),
      en_first_cap := decide ("cap" ∈ (pySplit '_' (mkEnTag n (pyIsUpper en_word)
        e0.isUpper)).toFinset) },
    hcreate, ?_, ?_, rfl, rfl, rfl, ?_, ?_, ?_, ?_, ?_, ?_, ?_, ?_⟩
  · unfold Template.load loadIsSide
    rw [hfindIs]
    dsimp only
    rw [if_pos rfl, td1, td2, td3]
    dsimp only
    unfold loadEnSide
    rw [Option.some_bind, hfindEn]
    dsimp only
    rw [if_pos rfl]
  · show (pySplit '_' (mkIsTag g c n (decide ("gr" ∈ tv))
        (pyIsUpper (tokens.getD index "")) c0.isUpper)).toFinset ∩
        INTERESTING_VARIANTS = tv ∩ INTERESTING_VARIANTS
    rw [td4, interesting_inter tv c n hc hn]
  · show decide ("caps" ∈ (pySplit '_' (mkIsTag g c n (decide ("gr" ∈ tv))
        (pyIsUpper (tokens.getD index "")) c0.isUpper)).toFinset) =
      pyIsUpper (tokens.getD index "")
    rw [td5]
  · show decide ("caps" ∈ (pySplit '_' (mkEnTag n (pyIsUpper en_word)
        e0.isUpper)).toFinset) = pyIsUpper en_word
    rw [te1]
  · intro hfalse
    show decide ("cap" ∈ (pySplit '_' (mkIsTag g c n (decide ("gr" ∈ tv))
        (pyIsUpper (tokens.getD index "")) c0.isUpper)).toFinset) = c0.isUpper
    rw [td6]
    have : pyIsUpper (tokens.getD index "") = false := hfalse
    rw [this]
    simp
  · intro htrue
    show decide ("cap" ∈ (pySplit '_' (mkIsTag g c n (decide ("gr" ∈ tv))
        (pyIsUpper (tokens.getD index "")) c0.isUpper)).toFinset) = false
    rw [td6]
    have : pyIsUpper (tokens.getD index "") = true := htrue
    rw [this]
    simp
  · intro hfalse
    show decide ("cap" ∈ (pySplit '_' (mkEnTag n (pyIsUpper en_word)
        e0.isUpper)).toFinset) = e0.isUpper
    rw [te2]
    have : pyIsUpper en_word = false := hfalse
    rw [this]
    simp
  · intro htrue
    show decide ("cap" ∈ (pySplit '_' (mkEnTag n (pyIsUpper en_word)
        e0.isUpper)).toFinset) = false
    rw [te2]
    have : pyIsUpper en_word = true := htrue
    rw [this]
    simp
  · exact hreplIs
  · exact hreplEn

/-- C1 (counterexample): for an all-caps source token, `create` records both
`is_all_caps = true` and `is_first_cap = true`, but the serialized tag only
carries `caps`, so the reloaded Template has `is_first_cap = false`; the
reloaded text also differs from the created one (neutral marker instead of
the tag), refuting the claim that `load` reproduces the same four
capitalization flags and the same texts. -/
theorem c1_counterexample :
    createdCaps.map Template.is_first_cap = some true ∧
    loadedCaps.map Template.is_first_cap = some false ∧
    createdCaps.map Template.is_template =
      some "\x7b0:kk_nf_et_caps\x7d hleypur hratt" ∧
    loadedCaps.map Template.is_template = some "[*] hleypur hratt" :=
  ⟨rfl, rfl, rfl, rfl⟩

/-- C1 witness: a concrete first-cap (not all-caps) round trip. -/
theorem c1_witness :
    ∃ t t', Template.create ["Hundur", "hleypur"] 0 {"kk", "nf", "et"}
        "The dog runs" "dog" "dog" = some t ∧
      Template.load t.is_template t.en_template = some t' ∧
      t'.variants = t.variants ∧ t'.gender = t.gender ∧ t'.caseTag = t.caseTag ∧
      t'.number = t.number ∧
      t'.is_all_caps = t.is_all_caps ∧ t'.en_all_caps = t.en_all_caps ∧
      (t.is_all_caps = false → t'.is_first_cap = t.is_first_cap) ∧
      (t.is_all_caps = true → t'.is_first_cap = false) ∧
      (t.en_all_caps = false → t'.en_first_cap = t.en_first_cap) ∧
      (t.en_all_caps = true → t'.en_first_cap = false) ∧
      t'.is_template = detok ((["Hundur", "hleypur"] : List String).set 0 PLACEHOLDER) ∧
      t'.en_template = subFirstWord "dog" PLACEHOLDER "The dog runs" :=
  c1_roundtrip ["Hundur", "hleypur"] 0 {"kk", "nf", "et"} "The dog runs" "dog" "dog"
    "kk" "nf" "et" (by decide) (by decide) (by decide) (by decide)
    (by unfold braceFree; decide) (by decide) (by decide)
    (by unfold braceFree; decide) (by decide)

/-! ## C4: disambiguation in the extraction loop -/

theorem toNat_ofNat_small (m : Nat) (h : m < 55296) : (Char.ofNat m).toNat = m := by
  have hv : m.isValidChar := Or.inl h
  rw [Char.ofNat, dif_pos hv]
  simp [Char.ofNatAux, Char.toNat, UInt32.toNat]

theorem wordChar_toLower_ne_lbrace (c : Char) (h : isWordChar c = true) :
    c.toLower ≠ '{' := by
  intro heq
  unfold Char.toLower at heq
  simp only at heq
  by_cases hcond : c.toNat ≥ 65 ∧ c.toNat ≤ 90
  · rw [if_pos hcond] at heq
    have h1 := congrArg Char.toNat heq
    rw [toNat_ofNat_small (c.toNat + 32) (by omega)] at h1
    have h2 : ('{' : Char).toNat = 123 := by decide
    omega
  · rw [if_neg hcond] at heq
    rw [heq] at h
    exact absurd h (by decide)

theorem wordMatchAt_parts (w s : List Char) (i : Nat) (h : wordMatchAt w s i = true) :
    i + w.length ≤ s.length ∧
    (List.zipWith lowerEq w ((s.drop i).take w.length)).all id = true := by
  unfold wordMatchAt at h
  simp only [Bool.and_eq_true, decide_eq_true_eq] at h
  exact ⟨h.1.1.1, h.1.2⟩

theorem findall_singleton (w s m : String) (h : findallWord w s = [m]) :
    m.data.length = w.data.length ∧ wordPositions w s ≠ [] := by
  unfold findallWord at h
  cases hp : wordPositions w s with
  | nil => rw [hp] at h; cases h
  | cons i tl =>
    rw [hp] at h
    rw [List.map_cons] at h
    have hm : m = String.mk ((s.data.drop i).take w.data.length) := by
      have := (List.cons.inj h).1
      exact this.symm
    have hmem : i ∈ wordPositions w s := by rw [hp]; exact List.mem_cons_self _ _
    obtain ⟨hmatch, _⟩ := wordPositions_mem w s i hmem
    have hbound := (wordMatchAt_parts _ _ _ hmatch).1
    constructor
    · rw [hm]
      show ((s.data.drop i).take w.data.length).length = w.data.length
      rw [List.length_take, List.length_drop]
      omega
    · exact List.cons_ne_nil _ _

theorem subFirstWord_ne_word (w repl s : String) (i : Nat) (tl : List Nat)
    (hpos : wordPositions w s = i :: tl)
    (hw : ∀ ch ∈ w.data, isWordChar ch = true) (hwne : w.data ≠ [])
    (hrepl : repl.data.head? = some '{') :
    subFirstWord w repl s ≠ s := by
  intro heq
  have hdata : s.data.take i ++ repl.data ++ s.data.drop (i + w.data.length) =
      s.data := by
    have h1 := congrArg String.data heq
    rw [subFirstWord_data w repl s i tl hpos] at h1
    exact h1
  have hmem : i ∈ wordPositions w s := by rw [hpos]; exact List.mem_cons_self _ _
  obtain ⟨hmatch, hilen⟩ := wordPositions_mem w s i hmem
  obtain ⟨hbound, hzip⟩ := wordMatchAt_parts _ _ _ hmatch
  obtain ⟨r0, rrest, hr0⟩ : ∃ r0 rrest, repl.data = r0 :: rrest := by
    cases hrd : repl.data with
    | nil => rw [hrd] at hrepl; cases hrepl
    | cons r0 rrest => exact ⟨r0, rrest, rfl⟩
  have hr0l : r0 = '{' := by
    rw [hr0] at hrepl
    exact Option.some.inj hrepl
  obtain ⟨w0, wrest, hw0⟩ : ∃ w0 wrest, w.data = w0 :: wrest := by
    cases hwd : w.data with
    | nil => exact absurd hwd hwne
    | cons w0 wrest => exact ⟨w0, wrest, rfl⟩
  have hrl : repl.data.length = rrest.length + 1 := by rw [hr0]; rfl
  -- the character of s at the match position is a brace after the splice
  have hgetl : s.data.get ⟨i, hilen⟩ = '{' := by
    have h1 := congrArg (fun l => l[i]?) hdata
    simp only at h1
    rw [List.getElem?_append_left (by
        rw [List.length_append, List.length_take]
        omega)] at h1
    rw [List.getElem?_append_right (by rw [List.length_take]; omega)] at h1
    rw [show i - (s.data.take i).length = 0 from by rw [List.length_take]; omega] at h1
    rw [hr0] at h1
    simp only [List.getElem?_cons_zero] at h1
    rw [List.getElem?_eq_getElem hilen] at h1
    have := Option.some.inj h1
    show s.data[i] = '{'
    rw [← this, hr0l]
  -- but the match forces it to compare equal to a word character
  have hdropi : s.data.drop i = s.data[i] :: s.data.drop (i + 1) :=
    List.drop_eq_getElem_cons hilen
  rw [hdropi, hw0] at hzip
  rw [List.length_cons, List.take_succ_cons, List.zipWith_cons_cons] at hzip
  rw [List.all_cons] at hzip
  simp only [Bool.and_eq_true] at hzip
  have hle : lowerEq w0 (s.data.get ⟨i, hilen⟩) = true := by
    have := hzip.1
    simpa using this
  unfold lowerEq at hle
  have hlow : w0.toLower = (s.data.get ⟨i, hilen⟩).toLower := of_decide_eq_true hle
  rw [hgetl] at hlow
  have : w0.toLower = '{' := by
    rw [hlow]; decide
  exact wordChar_toLower_ne_lbrace w0 (hw w0 (by rw [hw0]; exact List.mem_cons_self _ _)) this

theorem create_some (tokens : List String) (index : Nat) (tv : Finset String)
    (en_sent en_word w : String) (g c n : String)
    (hg : tv ∩ GENDER_VARIANTS = {g}) (hc : tv ∩ CASE_VARIANTS = {c})
    (hn : tv ∩ NUMBER_VARIANTS = {n})
    (hidx : index < tokens.length)
    (htxt : tokens.getD index "" ≠ "")
    (hword : en_word ≠ "")
    (hw : wordCharsOnly w)
    (hposne : wordPositions w en_sent ≠ []) :
    ∃ tpl, Template.create tokens index tv en_sent en_word w = some tpl := by
  have hgm : g ∈ GENDER_VARIANTS := by
    have : g ∈ tv ∩ GENDER_VARIANTS := hg ▸ Finset.mem_singleton_self g
    exact (Finset.mem_inter.mp this).2
  have hcm : c ∈ CASE_VARIANTS := by
    have : c ∈ tv ∩ CASE_VARIANTS := hc ▸ Finset.mem_singleton_self c
    exact (Finset.mem_inter.mp this).2
  have hnm : n ∈ NUMBER_VARIANTS := by
    have : n ∈ tv ∩ NUMBER_VARIANTS := hn ▸ Finset.mem_singleton_self n
    exact (Finset.mem_inter.mp this).2
  have hpopg : popSet GENDER_LIST (tv ∩ GENDER_VARIANTS) = some g := by
    rw [hg]; exact popSet_singleton _ _ (mem_gender_list g hgm)
  have hpopc : popSet CASE_LIST (tv ∩ CASE_VARIANTS) = some c := by
    rw [hc]; exact popSet_singleton _ _ (mem_case_list c hcm)
  have hpopn : popSet NUMBER_LIST (tv ∩ NUMBER_VARIANTS) = some n := by
    rw [hn]; exact popSet_singleton _ _ (mem_number_list n hnm)
  have hget : tokens.get? index = some (tokens.getD index "") := by
    rw [List.getD_eq_getElem _ _ hidx, List.get?_eq_getElem?]
    exact List.getElem?_eq_getElem hidx
  obtain ⟨c0, rest0, hc0⟩ : ∃ c0 rest0, (tokens.getD index "").data = c0 :: rest0 := by
    cases hd : (tokens.getD index "").data with
    | nil =>
      exfalso
      apply htxt
      have h1 : tokens.getD index "" = String.mk (tokens.getD index "").data := rfl
      rw [hd] at h1
      exact h1
    | cons c0 rest0 => exact ⟨c0, rest0, rfl⟩
  have hhead : (tokens.getD index "").data.head? = some c0 := by rw [hc0]; rfl
  obtain ⟨e0, reste, he0⟩ : ∃ e0 reste, en_word.data = e0 :: reste := by
    cases hd : en_word.data with
    | nil =>
      exfalso
      apply hword
      have h1 : en_word = String.mk en_word.data := rfl
      rw [hd] at h1
      exact h1
    | cons e0 reste => exact ⟨e0, reste, rfl⟩
  have hheadE : en_word.data.head? = some e0 := by rw [he0]; rfl
  obtain ⟨i, tl, hpos'⟩ : ∃ i tl, wordPositions w en_sent = i :: tl := by
    cases hp : wordPositions w en_sent with
    | nil => exact absurd hp hposne
    | cons i tl => exact ⟨i, tl, rfl⟩
  have hwne : w.data ≠ [] := by
    intro hnil
    apply hw.1
    have h1 : w = String.mk w.data := rfl
    rw [hnil] at h1
    exact h1
  have hne : subFirstWord w
      ("\x7b0:" ++ mkEnTag n (pyIsUpper en_word) e0.isUpper ++ "\x7d") en_sent ≠
      en_sent := by
    exact subFirstWord_ne_word w
      ("\x7b0:" ++ mkEnTag n (pyIsUpper en_word) e0.isUpper ++ "\x7d") en_sent
      i tl hpos' hw.2 hwne rfl
  unfold Template.create
  rw [hpopg, hpopc, hpopn, hget]
  dsimp only
  rw [hhead, hheadE]
  dsimp only
  rw [if_neg hne]
  exact ⟨_, rfl⟩

theorem candGo_nil (ip : Bool) (en : String) (count : Nat) (t r : String) :
    candGo ip en [] count t r = if count = 1 then some (t, r) else none := rfl

theorem candGo_cons_nil (ip : Bool) (en : String) (cand : String × String)
    (rest : List (String × String)) (count : Nat) (t r : String)
    (hf : findallWord (candWord ip cand) en = []) :
    candGo ip en (cand :: rest) count t r = candGo ip en rest count t r := by
  show (match findallWord (candWord ip cand) en with
        | [] => candGo ip en rest count t r
        | m1 :: ms =>
          if ms.length + 1 > 1 then none
          else if count + 1 > 1 then none
          else candGo ip en rest (count + 1) m1 (candWord ip cand)) =
      candGo ip en rest count t r
  rw [hf]

theorem candGo_cons_match (ip : Bool) (en : String) (cand : String × String)
    (rest : List (String × String)) (count : Nat) (t r : String)
    (m1 : String) (ms : List String)
    (hf : findallWord (candWord ip cand) en = m1 :: ms) :
    candGo ip en (cand :: rest) count t r =
      (if ms.length + 1 > 1 then none
       else if count + 1 > 1 then none
       else candGo ip en rest (count + 1) m1 (candWord ip cand)) := by
  show (match findallWord (candWord ip cand) en with
        | [] => candGo ip en rest count t r
        | m1' :: ms' =>
          if ms'.length + 1 > 1 then none
          else if count + 1 > 1 then none
          else candGo ip en rest (count + 1) m1' (candWord ip cand)) = _
  rw [hf]

theorem candGo_one (ip : Bool) (en : String) :
    ∀ (l : List (String × String)) (t r : String) (p : String × String),
    candGo ip en l 1 t r = some p → p = (t, r) := by
  intro l
  induction l with
  | nil =>
    intro t r p h
    rw [candGo_nil, if_pos rfl] at h
    exact (Option.some.inj h).symm
  | cons cand rest ih =>
    intro t r p h
    cases hf : findallWord (candWord ip cand) en with
    | nil =>
      rw [candGo_cons_nil ip en cand rest 1 t r hf] at h
      exact ih t r p h
    | cons m1 ms =>
      rw [candGo_cons_match ip en cand rest 1 t r m1 ms hf] at h
      by_cases hms : ms.length + 1 > 1
      · rw [if_pos hms] at h; cases h
      · rw [if_neg hms, if_pos (by omega)] at h; cases h

theorem candGo_zero_val (ip : Bool) (en : String) :
    ∀ (l : List (String × String)) (t r : String) (p : String × String),
    candGo ip en l 0 t r = some p →
    ∃ cd ∈ l, p.2 = candWord ip cd ∧ findallWord p.2 en = [p.1] := by
  intro l
  induction l with
  | nil =>
    intro t r p h
    rw [candGo_nil, if_neg (by omega)] at h
    cases h
  | cons cand rest ih =>
    intro t r p h
    cases hf : findallWord (candWord ip cand) en with
    | nil =>
      rw [candGo_cons_nil ip en cand rest 0 t r hf] at h
      obtain ⟨cd, hcd, hcs⟩ := ih t r p h
      exact ⟨cd, List.mem_cons_of_mem _ hcd, hcs⟩
    | cons m1 ms =>
      rw [candGo_cons_match ip en cand rest 0 t r m1 ms hf] at h
      by_cases hms : ms.length + 1 > 1
      · rw [if_pos hms] at h; cases h
      · rw [if_neg hms, if_neg (by omega)] at h
        have hp := candGo_one ip en rest m1 (candWord ip cand) p h
        have hms0 : ms = [] := List.length_eq_zero.mp (by omega)
        refine ⟨cand, List.mem_cons_self _ _, ?_, ?_⟩
        · rw [hp]
        · rw [hp]
          show findallWord (candWord ip cand) en = [m1]
          rw [hf, hms0]

theorem candGo_isSome_iff (ip : Bool) (en : String) :
    ∀ (l : List (String × String)) (count : Nat) (t r : String), count ≤ 1 →
    ((candGo ip en l count t r).isSome = true ↔
      (count + l.countP (fun c => !(findallWord (candWord ip c) en).isEmpty) = 1 ∧
       ∀ c ∈ l, (findallWord (candWord ip c) en).length ≤ 1)) := by
  intro l
  induction l with
  | nil =>
    intro count t r hle
    rw [candGo_nil]
    constructor
    · intro h
      by_cases hc : count = 1
      · exact ⟨by simp [hc], fun c hc' => absurd hc' (List.not_mem_nil c)⟩
      · rw [if_neg hc] at h
        simp at h
    · rintro ⟨h1, _⟩
      have hc : count = 1 := by simpa using h1
      rw [if_pos hc]
      rfl
  | cons cand rest ih =>
    intro count t r hle
    cases hf : findallWord (candWord ip cand) en with
    | nil =>
      have hp : (!(findallWord (candWord ip cand) en).isEmpty) = false := by
        rw [hf]; rfl
      rw [candGo_cons_nil ip en cand rest count t r hf, ih count t r hle]
      constructor
      · rintro ⟨h1, h2⟩
        constructor
        · simp only [List.countP_cons]
          rw [hp, if_neg Bool.false_ne_true]
          omega
        · intro c hc
          rcases List.mem_cons.mp hc with hceq | hcm
          · rw [hceq, hf]
            simp
          · exact h2 c hcm
      · rintro ⟨h1, h2⟩
        constructor
        · simp only [List.countP_cons] at h1
          rw [hp, if_neg Bool.false_ne_true] at h1
          omega
        · intro c hc
          exact h2 c (List.mem_cons_of_mem _ hc)
    | cons m1 ms =>
      have hp : (!(findallWord (candWord ip cand) en).isEmpty) = true := by
        rw [hf]; rfl
      rw [candGo_cons_match ip en cand rest count t r m1 ms hf]
      by_cases hms : ms.length + 1 > 1
      · rw [if_pos hms]
        constructor
        · intro h
          simp at h
        · rintro ⟨_, h2⟩
          exfalso
          have hq := h2 cand (List.mem_cons_self _ _)
          rw [hf, List.length_cons] at hq
          omega
      · have hms0 : ms = [] := List.length_eq_zero.mp (by omega)
        rw [if_neg hms]
        by_cases hcnt : count + 1 > 1
        · rw [if_pos hcnt]
          constructor
          · intro h
            simp at h
          · rintro ⟨h1, _⟩
            exfalso
            simp only [List.countP_cons] at h1
            rw [hp, if_pos rfl] at h1
            omega
        · rw [if_neg hcnt]
          have hc0 : count = 0 := by omega
          subst hc0
          rw [Nat.zero_add, ih 1 m1 (candWord ip cand) (by omega)]
          constructor
          · rintro ⟨h1, h2⟩
            constructor
            · simp only [List.countP_cons]
              rw [hp, if_pos rfl]
              omega
            · intro c hc
              rcases List.mem_cons.mp hc with hceq | hcm
              · rw [hceq, hf, List.length_cons]
                omega
              · exact h2 c hcm
          · rintro ⟨h1, h2⟩
            simp only [List.countP_cons] at h1
            rw [hp, if_pos rfl] at h1
            exact ⟨by omega, fun c hc => h2 c (List.mem_cons_of_mem _ hc)⟩

/-- C4 (amended): for a single-token noun terminal (surface text without a
space) whose lemma is in the glossary, with word-character candidate
patterns, a well-formed variant signature and a valid token index, a
Template is created and written if and only if exactly one candidate
English pattern matches the English sentence and no candidate matches more
than once.  (The claim as stated is refuted by multi-token noun terminals,
which are skipped before disambiguation even when a unique match exists.) -/
theorem c4_disambiguation (glossary : Glossary) (tokens : List String)
    (en_sent : String) (t : Terminal) (en_lemmas : List (String × String))
    (g c n : String)
    (hcat : t.category = "no")
    (hspace : t.text.data.contains ' ' = false)
    (hfound : glossaryGet glossary t.lemmaTxt = some en_lemmas)
    (hglo : ∀ cd ∈ en_lemmas, wordCharsOnly cd.1 ∧ wordCharsOnly cd.2)
    (hg : t.variants ∩ GENDER_VARIANTS = {g})
    (hc : t.variants ∩ CASE_VARIANTS = {c})
    (hn : t.variants ∩ NUMBER_VARIANTS = {n})
    (hidx : t.index < tokens.length)
    (htxt : tokens.getD t.index "" ≠ "") :
    (∃ tpl, processNoun glossary tokens en_sent t = some (some tpl)) ↔
      uniqueMatchCond en_lemmas (decide ("ft" ∈ t.variants)) en_sent := by
  have hspace' : ¬(t.text.data.contains ' ' = true) := by
    rw [hspace]
    exact Bool.false_ne_true
  have hred : processNoun glossary tokens en_sent t =
      (match candGo (decide ("ft" ∈ t.variants)) en_sent en_lemmas 0 "" "" with
       | none => some none
       | some (target, w) =>
         if target = "" then none
         else
           match Template.create tokens t.index t.variants en_sent target w with
           | none => none
           | some tpl => some (some tpl)) := by
    unfold processNoun
    rw [if_neg (fun hcc => hcc hcat), if_neg hspace', hfound]
  constructor
  · rintro ⟨tpl, htpl⟩
    rw [hred] at htpl
    cases hcg : candGo (decide ("ft" ∈ t.variants)) en_sent en_lemmas 0 "" "" with
    | none =>
      rw [hcg] at htpl
      exact Option.noConfusion (Option.some.inj htpl)
    | some p =>
      have hs : (candGo (decide ("ft" ∈ t.variants)) en_sent
          en_lemmas 0 "" "").isSome = true := by
        rw [hcg]
        rfl
      have hcond := (candGo_isSome_iff (decide ("ft" ∈ t.variants)) en_sent
        en_lemmas 0 "" "" (by omega)).mp hs
      unfold uniqueMatchCond
      refine ⟨?_, hcond.2⟩
      have h1 := hcond.1
      omega
  · intro hcond
    unfold uniqueMatchCond at hcond
    have hs : (candGo (decide ("ft" ∈ t.variants)) en_sent
        en_lemmas 0 "" "").isSome = true :=
      (candGo_isSome_iff (decide ("ft" ∈ t.variants)) en_sent
        en_lemmas 0 "" "" (by omega)).mpr ⟨by have h1 := hcond.1; omega, hcond.2⟩
    obtain ⟨p, hp⟩ := Option.isSome_iff_exists.mp hs
    obtain ⟨p1, p2⟩ := p
    obtain ⟨cd, hcdm, hp2, hpm⟩ :=
      candGo_zero_val (decide ("ft" ∈ t.variants)) en_sent en_lemmas "" "" (p1, p2) hp
    have hp2' : p2 = candWord (decide ("ft" ∈ t.variants)) cd := hp2
    have hpm' : findallWord p2 en_sent = [p1] := hpm
    have hwchars : wordCharsOnly p2 := by
      rw [hp2']
      unfold candWord
      by_cases hip : (decide ("ft" ∈ t.variants)) = true
      · rw [if_pos hip]
        exact (hglo cd hcdm).2
      · rw [if_neg hip]
        exact (hglo cd hcdm).1
    obtain ⟨hlen, hposne⟩ := findall_singleton p2 en_sent p1 hpm'
    have hword : p1 ≠ "" := by
      intro hp1
      apply hwchars.1
      have hd1 : p1.data = [] := by rw [hp1]
      rw [hd1] at hlen
      have hd2 : p2.data = [] := List.length_eq_zero.mp hlen.symm
      have h2 : p2 = String.mk p2.data := rfl
      rw [hd2] at h2
      exact h2
    obtain ⟨tpl, htpl⟩ := create_some tokens t.index t.variants en_sent p1 p2
      g c n hg hc hn hidx htxt hword hwchars hposne
    refine ⟨tpl, ?_⟩
    rw [hred, hp]
    show (if p1 = "" then (none : Option (Option Template))
          else
            match Template.create tokens t.index t.variants en_sent p1 p2 with
            | none => none
            | some tpl2 => some (some tpl2)) = some (some tpl)
    rw [if_neg hword, htpl]

/-- C4 (counterexample): the claim says a Template is created and written
iff exactly one candidate matches exactly once; but a noun terminal whose
surface text spans several tokens (contains a space) is skipped before
disambiguation, so no template is emitted even though its single glossary
candidate matches the English sentence exactly once. -/
theorem c4_counterexample :
    processNoun glossDog ["a b", "barks"] "the dog barks" termSpace = some none ∧
    uniqueMatchCond [("dog", "dogs")] (decide ("ft" ∈ termSpace.variants))
      "the dog barks" := by
  constructor
  · rfl
  · unfold uniqueMatchCond
    decide

/-- C4 witness: for a concrete single-token noun terminal and glossary, the
emission-iff-unique-match equivalence holds. -/
theorem c4_witness :
    (∃ tpl, processNoun glossDog ["Hundur", "hleypur"] "The dog runs" termGood =
        some (some tpl)) ↔
      uniqueMatchCond [("dog", "dogs")] (decide ("ft" ∈ termGood.variants))
        "The dog runs" :=
  c4_disambiguation glossDog ["Hundur", "hleypur"] "The dog runs" termGood
    [("dog", "dogs")] "kk" "nf" "et" rfl rfl rfl
    (by
      intro cd hcd
      unfold wordCharsOnly
      fin_cases hcd
      exact ⟨by decide, by decide⟩)
    (by decide) (by decide) (by decide) (by decide) (by decide)
